import Mathlib

/-!
Shallow embedding of the NetworkTables v3 client core of gloworm-app
(packages `networktables` and its badger-backed store), together with
theorems about the embedded definitions.

Modelling conventions, applied uniformly:

* Go byte streams are `List Nat`, each element a byte value.  Readers take
  the input list and return the decoded value, the number of bytes
  consumed, and the remaining input; Go's `io.ReadFull` EOF becomes the
  `shortRead` error.  Writers are pure and return the list of bytes
  written (the Go writers only fail when the underlying `io.Writer` fails,
  which is modelled separately by the client-level `writeOk` flag).
* Go `uint64`/`uint16`/`uint8` arithmetic is `Nat` with explicit `% 2^64`,
  `% 2^16`, `% 2^8` where Go truncates; Go `int` is `Int`.
* Go `float64` values are modelled by their IEEE-754 bit pattern as a
  `Nat`; `math.Float64bits` / `math.Float64frombits` transport those bit
  patterns bijectively, so the wire codec (which only moves the raw bits)
  is modelled exactly.
* Go strings are raw byte lists (`List Nat`); `string(b)` and `[]byte(s)`
  are identities of this model, matching Go's byte-level conversions.
* A Go runtime panic (out-of-range slice index) is modelled as the
  distinguished error `GoError.panicked`; the program has no `recover`,
  so a function whose model produces `panicked` crashes the process at
  that point in the real program.
* The badger key/value database is modelled by five association lists,
  one per key family used by the store implementation: `<id>/value`,
  `<id>/opt`, `<id>/seq`, `names/<name>`, `ids/<id>`.  `strconv.Itoa` is
  injective and the families' key shapes are disjoint, so this split is
  faithful; `tx.Set` overwrites, `tx.Delete` of a missing key succeeds,
  and the gob/Itoa round-trips through stored bytes are identities.
-/

/-- Error kinds produced by the embedded code.  Go wraps errors in
human-readable strings; only the kind matters for the model. -/
inductive GoError where
  | shortRead
  | invalidBoolean
  | invalidTag
  | unknownMessage
  | unexpectedMessage
  | notFound
  | panicked
  | dialFailed
  | ioError
  deriving DecidableEq

/-- Decidable equality for `Except`, to settle runs of the embedded code
on concrete inputs by computation. -/
instance exceptDecEq {E A : Type} [DecidableEq E] [DecidableEq A] :
    DecidableEq (Except E A) := fun a b =>
  match a, b with
  | .ok x, .ok y =>
    if h : x = y then .isTrue (by rw [h]) else .isFalse (by simp [h])
  | .error e, .error f =>
    if h : e = f then .isTrue (by rw [h]) else .isFalse (by simp [h])
  | .ok _, .error _ => .isFalse fun h => Except.noConfusion h
  | .error _, .ok _ => .isFalse fun h => Except.noConfusion h

/-- Association-list lookup: first binding of the key, if any.  Models a
key/value store lookup restricted to one key family. -/
def alGet {κ α : Type} [DecidableEq κ] : List (κ × α) → κ → Option α
  | [], _ => none
  | (k', v) :: rest, k => if k' = k then some v else alGet rest k

/-- Association-list delete: removes every binding of the key (there is at
most one, since updates go through `alSet`).  Models `tx.Delete`, which
also succeeds when the key is absent. -/
def alDel {κ α : Type} [DecidableEq κ] : List (κ × α) → κ → List (κ × α)
  | [], _ => []
  | (k', v) :: rest, k => if k' = k then alDel rest k else (k', v) :: alDel rest k

/-- Association-list overwrite; models `tx.Set`. -/
def alSet {κ α : Type} [DecidableEq κ] (l : List (κ × α)) (k : κ) (v : α) : List (κ × α) :=
  (k, v) :: alDel l k

theorem alGet_alDel {κ α : Type} [DecidableEq κ] (l : List (κ × α)) (k k' : κ) :
    alGet (alDel l k) k' = if k' = k then none else alGet l k' := by
  induction l with
  | nil => simp [alGet, alDel]
  | cons p rest ih =>
    obtain ⟨k0, v0⟩ := p
    by_cases h0 : k0 = k <;> by_cases h1 : k0 = k' <;> by_cases h2 : k' = k <;>
      simp_all [alDel, alGet]

theorem alGet_alSet {κ α : Type} [DecidableEq κ] (l : List (κ × α)) (k k' : κ) (v : α) :
    alGet (alSet l k v) k' = if k' = k then some v else alGet l k' := by
  by_cases h : k' = k
  · subst h; simp [alSet, alGet]
  · have h' : ¬k = k' := fun e => h e.symm
    simp [alSet, alGet, h, h', alGet_alDel]

/-- Go `io.ReadFull` into a buffer of `n` bytes: returns the buffer and the
remaining input, or an EOF error when fewer than `n` bytes remain. -/
def readFull (n : Nat) (input : List Nat) : Except GoError (List Nat × List Nat) :=
  if n ≤ input.length then .ok (input.take n, input.drop n) else .error .shortRead

/-- Go `binary.BigEndian.Uint16`: needs at least two bytes (it indexes
`b[1]`), otherwise the real program panics. -/
def bigEndianUint16 (b : List Nat) : Except GoError Nat :=
  match b with
  | b0 :: b1 :: _ => .ok ((b0 % 256) * 256 + b1 % 256)
  | _ => .error .panicked

/-- Go `binary.BigEndian.Uint64`: needs at least eight bytes (it indexes
`b[7]`), otherwise the real program panics. -/
def bigEndianUint64 (b : List Nat) : Except GoError Nat :=
  match b with
  | b0 :: b1 :: b2 :: b3 :: b4 :: b5 :: b6 :: b7 :: _ =>
    .ok ((b0 % 256) * 2 ^ 56 + (b1 % 256) * 2 ^ 48 + (b2 % 256) * 2 ^ 40 +
      (b3 % 256) * 2 ^ 32 + (b4 % 256) * 2 ^ 24 + (b5 % 256) * 2 ^ 16 +
      (b6 % 256) * 256 + b7 % 256)
  | _ => .error .panicked

/-- Go `binary.BigEndian.PutUint16` into a 2-byte buffer. -/
def putUint16 (v : Nat) : List Nat :=
  [v / 256 % 256, v % 256]

/-- Go `binary.BigEndian.PutUint64` into an 8-byte buffer. -/
def putUint64 (v : Nat) : List Nat :=
  [v / 2 ^ 56 % 256, v / 2 ^ 48 % 256, v / 2 ^ 40 % 256, v / 2 ^ 32 % 256,
    v / 2 ^ 24 % 256, v / 2 ^ 16 % 256, v / 256 % 256, v % 256]

/-- Go `uint16(i)` for `i : int`: two's-complement truncation, i.e. the
mathematical residue mod 2^16. -/
def intToUint16 (i : Int) : Nat := (i % 65536).toNat

/-- Go `byte(i)` for an integer-typed `i`. -/
def intToByte (i : Int) : Nat := (i % 256).toNat

/-- Loop of `uleb128.Encode`, with explicit fuel so that the definition is
structurally recursive and computes by kernel reduction.  One iteration
per 7-bit group; the value shrinks by a factor of 128 each round, so
`v + 1` fuel always suffices (see `uleb_encodeAux_congr` below). -/
def uleb128.EncodeAux : Nat → Nat → List Nat
  | 0, _ => []
  | fuel + 1, v =>
    if v < 128 then [v] else (v % 128 + 128) :: uleb128.EncodeAux fuel (v / 128)

/-- Model of `uleb128.Encode` (part_001): emits 7-bit groups, low group
first, high bit marking continuation. -/
def uleb128.Encode (v : Nat) : List Nat :=
  uleb128.EncodeAux (v + 1) v

/-- Model of the loop body of `uleb128.Decode` (part_001): `x` and `s` are
the Go locals, `total` counts bytes read.  The Go accumulator is a
`uint64`, so each shifted group is truncated mod 2^64 before being OR-ed
in; the loop itself has no overflow check and no iteration bound. -/
def uleb128.DecodeAux : List Nat → Nat → Nat → Nat → Except GoError (Nat × Nat × List Nat)
  | [], _, _, _ => .error .shortRead
  | b :: rest, x, s, total =>
    let x' := x ||| ((0x7F &&& b) <<< s) % 2 ^ 64
    if b &&& 0x80 = 0 then .ok (x', total + 1, rest)
    else uleb128.DecodeAux rest x' (s + 7) (total + 1)

/-- Model of `uleb128.Decode` (part_001). -/
def uleb128.Decode (input : List Nat) : Except GoError (Nat × Nat × List Nat) :=
  uleb128.DecodeAux input 0 0 0

/-- Specification-side helper: splits the input at the first byte whose
continuation bit is clear, returning the consumed group bytes and the
remaining input; `none` when the stream ends first. -/
def ulebSplit : List Nat → Option (List Nat × List Nat)
  | [] => none
  | b :: rest =>
    if b &&& 0x80 = 0 then some ([b], rest)
    else (ulebSplit rest).map fun p => (b :: p.1, p.2)

/-- Specification-side helper: the exact (unbounded) mathematical value of
a list of ULEB128 group bytes whose first group sits at bit offset `s`. -/
def ulebVal : List Nat → Nat → Nat
  | [], _ => 0
  | b :: rest, s => b % 128 * 2 ^ s + ulebVal rest (s + 7)

/-- Wire entry-type constants (part_001); the Go type `ntEntryType` is an
`int`. -/
def booleanEntryType : Int := 0x00

def doubleEntryType : Int := 0x01

def stringEntryType : Int := 0x02

def rawDataEntryType : Int := 0x03

def booleanArrayEntryType : Int := 0x10

def doubleArrayEntryType : Int := 0x11

def stringArrayEntryType : Int := 0x12

def remoteProcedureCallDefinitionEntryType : Int := 0x20

/-- Model of `ntEntryFlags` (part_001). -/
structure ntEntryFlags where
  Persist : Bool
  deriving DecidableEq

/-- Model of `ntEntryFlags.Decode`: reads one byte, bit 0 is `persist`. -/
def ntEntryFlags.Decode : List Nat → Except GoError (ntEntryFlags × Nat × List Nat)
  | [] => .error .shortRead
  | b :: rest => .ok ({ Persist := b &&& 1 = 1 }, 1, rest)

/-- Model of `ntEntryFlags.Encode`. -/
def ntEntryFlags.Encode (ef : ntEntryFlags) : List Nat :=
  [if ef.Persist then 1 else 0]

/-- Model of `ntBoolean.Decode`: one byte, `0x01` is true, `0x00` is false,
anything else is a decode error. -/
def ntBoolean.Decode : List Nat → Except GoError (Bool × Nat × List Nat)
  | [] => .error .shortRead
  | b :: rest =>
    if b = 0x01 then .ok (true, 1, rest)
    else if b ≠ 0x00 then .error .invalidBoolean
    else .ok (false, 1, rest)

/-- Model of `ntBoolean.Encode`. -/
def ntBoolean.Encode (b : Bool) : List Nat :=
  [if b then 0x01 else 0x00]

/-- Model of `ntDouble.Decode`: eight big-endian bytes giving the IEEE-754
bit pattern (`math.Float64frombits` is the identity on bit patterns). -/
def ntDouble.Decode (input : List Nat) : Except GoError (Nat × Nat × List Nat) := do
  let (buf, rest) ← readFull 8 input
  let bits ← bigEndianUint64 buf
  .ok (bits, 8, rest)

/-- Model of `ntDouble.Encode` on the bit pattern of the stored float. -/
def ntDouble.Encode (bits : Nat) : List Nat :=
  putUint64 bits

/-- Model of `ntRawData.Decode`: ULEB128 length, then exactly that many
bytes. -/
def ntRawData.Decode (input : List Nat) : Except GoError (List Nat × Nat × List Nat) := do
  let (size, sizeN, r1) ← uleb128.Decode input
  let (buf, rest) ← readFull size r1
  .ok (buf, sizeN + size, rest)

/-- Model of `ntRawData.Encode`: ULEB128 of the length, then the bytes. -/
def ntRawData.Encode (v : List Nat) : List Nat :=
  uleb128.Encode v.length ++ v

/-- Model of `ntString.Decode`: a string is decoded as raw data
(`string(raw.V)` copies the bytes). -/
def ntString.Decode (input : List Nat) : Except GoError (List Nat × Nat × List Nat) :=
  ntRawData.Decode input

/-- Model of `ntString.Encode`. -/
def ntString.Encode (v : List Nat) : List Nat :=
  ntRawData.Encode v

/-- Loop of `ntBooleanArray.Decode`: decodes `n` booleans. -/
def ntBooleanArray.DecodeAux : Nat → List Nat → Except GoError (List Bool × Nat × List Nat)
  | 0, input => .ok ([], 0, input)
  | n + 1, input => do
    let (b, bn, r1) ← ntBoolean.Decode input
    let (bs, bsn, rest) ← ntBooleanArray.DecodeAux n r1
    .ok (b :: bs, bn + bsn, rest)

/-- Model of `ntBooleanArray.Decode`: one size byte, then that many
booleans. -/
def ntBooleanArray.Decode : List Nat → Except GoError (List Bool × Nat × List Nat)
  | [] => .error .shortRead
  | size :: r1 => do
    let (bs, n, rest) ← ntBooleanArray.DecodeAux (size % 256) r1
    .ok (bs, 1 + n, rest)

/-- Model of `ntBooleanArray.Encode`: `uint8(len)` size byte (truncating a
length above 255), then the elements. -/
def ntBooleanArray.Encode (v : List Bool) : List Nat :=
  v.length % 256 :: (v.map ntBoolean.Encode).flatten

/-- Loop of `ntDoubleArray.Decode`. -/
def ntDoubleArray.DecodeAux : Nat → List Nat → Except GoError (List Nat × Nat × List Nat)
  | 0, input => .ok ([], 0, input)
  | n + 1, input => do
    let (d, dn, r1) ← ntDouble.Decode input
    let (ds, dsn, rest) ← ntDoubleArray.DecodeAux n r1
    .ok (d :: ds, dn + dsn, rest)

/-- Model of `ntDoubleArray.Decode` (elements are IEEE-754 bit patterns). -/
def ntDoubleArray.Decode : List Nat → Except GoError (List Nat × Nat × List Nat)
  | [] => .error .shortRead
  | size :: r1 => do
    let (ds, n, rest) ← ntDoubleArray.DecodeAux (size % 256) r1
    .ok (ds, 1 + n, rest)

/-- Model of `ntDoubleArray.Encode`. -/
def ntDoubleArray.Encode (v : List Nat) : List Nat :=
  v.length % 256 :: (v.map ntDouble.Encode).flatten

/-- Loop of `ntStringArray.Decode`. -/
def ntStringArray.DecodeAux : Nat → List Nat → Except GoError (List (List Nat) × Nat × List Nat)
  | 0, input => .ok ([], 0, input)
  | n + 1, input => do
    let (s, sn, r1) ← ntString.Decode input
    let (ss, ssn, rest) ← ntStringArray.DecodeAux n r1
    .ok (s :: ss, sn + ssn, rest)

/-- Model of `ntStringArray.Decode`. -/
def ntStringArray.Decode : List Nat → Except GoError (List (List Nat) × Nat × List Nat)
  | [] => .error .shortRead
  | size :: r1 => do
    let (ss, n, rest) ← ntStringArray.DecodeAux (size % 256) r1
    .ok (ss, 1 + n, rest)

/-- Model of `ntStringArray.Encode`. -/
def ntStringArray.Encode (v : List (List Nat)) : List Nat :=
  v.length % 256 :: (v.map ntString.Encode).flatten

/-- Model of `ntEntryValue` (part_001): the Go struct keeps one field per
variant plus the tag; the Go field `Type` is named `EType` here (`Type` is
reserved in Lean), and doubles are carried as IEEE-754 bit patterns. -/
structure ntEntryValue where
  EType : Int
  BooleanValue : Bool
  DoubleValue : Nat
  StringValue : List Nat
  RawDataValue : List Nat
  BooleanArrayValue : List Bool
  DoubleArrayValue : List Nat
  StringArrayValue : List (List Nat)
  deriving DecidableEq

/-- The zero value of `ntEntryValue`, as produced by `var x ntEntryValue`
in Go. -/
def ntEntryValue.zero : ntEntryValue where
  EType := 0
  BooleanValue := false
  DoubleValue := 0
  StringValue := []
  RawDataValue := []
  BooleanArrayValue := []
  DoubleArrayValue := []
  StringArrayValue := []

/-- Model of `ntEntryValue.Decode`: the tag has already been read by the
surrounding message decoder and stored in the receiver, so it is a
parameter; only the field selected by the tag is filled in, the others
keep their zero values, exactly as in the Go method. -/
def ntEntryValue.Decode (ty : Int) (input : List Nat) :
    Except GoError (ntEntryValue × Nat × List Nat) :=
  if ty = booleanEntryType then do
    let (b, n, rest) ← ntBoolean.Decode input
    .ok ({ ntEntryValue.zero with EType := ty, BooleanValue := b }, n, rest)
  else if ty = doubleEntryType then do
    let (d, n, rest) ← ntDouble.Decode input
    .ok ({ ntEntryValue.zero with EType := ty, DoubleValue := d }, n, rest)
  else if ty = stringEntryType then do
    let (s, n, rest) ← ntString.Decode input
    .ok ({ ntEntryValue.zero with EType := ty, StringValue := s }, n, rest)
  else if ty = rawDataEntryType then do
    let (r, n, rest) ← ntRawData.Decode input
    .ok ({ ntEntryValue.zero with EType := ty, RawDataValue := r }, n, rest)
  else if ty = booleanArrayEntryType then do
    let (bs, n, rest) ← ntBooleanArray.Decode input
    .ok ({ ntEntryValue.zero with EType := ty, BooleanArrayValue := bs }, n, rest)
  else if ty = doubleArrayEntryType then do
    let (ds, n, rest) ← ntDoubleArray.Decode input
    .ok ({ ntEntryValue.zero with EType := ty, DoubleArrayValue := ds }, n, rest)
  else if ty = stringArrayEntryType then do
    let (ss, n, rest) ← ntStringArray.Decode input
    .ok ({ ntEntryValue.zero with EType := ty, StringArrayValue := ss }, n, rest)
  else .error .invalidTag

/-- Model of `ntEntryValue.Encode`: writes only the field selected by the
tag; an unknown tag is an error. -/
def ntEntryValue.Encode (ev : ntEntryValue) : Except GoError (List Nat) :=
  if ev.EType = booleanEntryType then .ok (ntBoolean.Encode ev.BooleanValue)
  else if ev.EType = doubleEntryType then .ok (ntDouble.Encode ev.DoubleValue)
  else if ev.EType = stringEntryType then .ok (ntString.Encode ev.StringValue)
  else if ev.EType = rawDataEntryType then .ok (ntRawData.Encode ev.RawDataValue)
  else if ev.EType = booleanArrayEntryType then .ok (ntBooleanArray.Encode ev.BooleanArrayValue)
  else if ev.EType = doubleArrayEntryType then .ok (ntDoubleArray.Encode ev.DoubleArrayValue)
  else if ev.EType = stringArrayEntryType then .ok (ntStringArray.Encode ev.StringArrayValue)
  else .error .invalidTag

/-- Message-type constants (message.go); Go type `uint8`. -/
def keepAliveMessageType : Nat := 0x00

def clientHelloMessageType : Nat := 0x01

def protocolVersionUnsupportedMessageType : Nat := 0x02

def serverHelloCompleteMessageType : Nat := 0x03

def serverHelloMessageType : Nat := 0x04

def clientHelloCompleteMessageType : Nat := 0x05

def entryAssignmentMessageType : Nat := 0x10

def entryUpdateMessageType : Nat := 0x11

def entryFlagsUpdateMessageType : Nat := 0x12

def entryDeleteMessageType : Nat := 0x13

def clearAllEntriesMessageType : Nat := 0x14

/-- Model of `ntMessageType.Decode`: one byte. -/
def ntMessageType.Decode : List Nat → Except GoError (Nat × Nat × List Nat)
  | [] => .error .shortRead
  | b :: rest => .ok (b, 1, rest)

/-- Model of `ntMessageType.Encode`. -/
def ntMessageType.Encode (t : Nat) : List Nat := [t % 256]

/-- Go slice indexing `b[0]`: panics on an empty slice. -/
def headByte : List Nat → Except GoError Nat
  | [] => .error .panicked
  | b :: _ => .ok b

/-- The protocol revision constant (client.go). -/
def protocolVersion : Nat := 0x0300

/-- The sentinel id requesting a server-assigned id (message.go,
`createID`); Go type `uint16`. -/
def createID : Nat := 0xFFFF

/-- The clear-all-entries protection constant (client.go). -/
def clearAllEntriesMagic : Nat := 0xD06CB27A

/-- Model of `ntServerHello` (message.go); the flag byte is decoded into
`ClientSeen` (bit 0). -/
structure ntServerHello where
  ClientSeen : Bool
  ServerIdentity : List Nat
  deriving DecidableEq

/-- Model of `ntServerFlag.Decode` composed with `ntServerHello.Decode`:
one flag byte, then the identity string. -/
def ntServerHello.Decode (input : List Nat) : Except GoError (ntServerHello × Nat × List Nat) := do
  match input with
  | [] => .error .shortRead
  | b :: r1 => do
    let (ident, identN, rest) ← ntString.Decode r1
    .ok ({ ClientSeen := b &&& 1 = 1, ServerIdentity := ident }, 1 + identN, rest)

/-- Model of `ntEntryAssignment` (message.go); `ID` and `SequenceNumber`
are Go `uint16`. -/
structure ntEntryAssignment where
  Name : List Nat
  ID : Nat
  SequenceNumber : Nat
  EntryValue : ntEntryValue
  EntryFlags : ntEntryFlags
  deriving DecidableEq

/-- Model of `ntEntryAssignment.Decode`: name string, then a 5-byte buffer
holding type, id and seq, then flags, then the typed value. -/
def ntEntryAssignment.Decode (input : List Nat) :
    Except GoError (ntEntryAssignment × Nat × List Nat) := do
  let (name, nameN, r1) ← ntString.Decode input
  let (buf, r2) ← readFull 5 r1
  let t ← headByte buf
  let idv ← bigEndianUint16 (buf.drop 1)
  let seq ← bigEndianUint16 (buf.drop 3)
  let (flags, flagN, r3) ← ntEntryFlags.Decode r2
  let (ev, valueN, r4) ← ntEntryValue.Decode (Int.ofNat t) r3
  let ea : ntEntryAssignment := { Name := name, ID := idv, SequenceNumber := seq,
                                  EntryFlags := flags, EntryValue := ev }
  .ok (ea, nameN + 5 + flagN + valueN, r4)

/-- Model of `ntEntryAssignment.Encode`. -/
def ntEntryAssignment.Encode (ea : ntEntryAssignment) : Except GoError (List Nat) := do
  let valueB ← ea.EntryValue.Encode
  .ok (ntString.Encode ea.Name ++
    (intToByte ea.EntryValue.EType :: putUint16 ea.ID ++ putUint16 ea.SequenceNumber) ++
    ntEntryFlags.Encode ea.EntryFlags ++ valueB)

/-- Model of `ntEntryUpdate` (message.go). -/
structure ntEntryUpdate where
  ID : Nat
  SequenceNumber : Nat
  EntryValue : ntEntryValue
  deriving DecidableEq

/-- Model of `ntEntryUpdate.Decode`: a 5-byte buffer holding id, seq and
type, then the typed value. -/
def ntEntryUpdate.Decode (input : List Nat) :
    Except GoError (ntEntryUpdate × Nat × List Nat) := do
  let (buf, r1) ← readFull 5 input
  let idv ← bigEndianUint16 buf
  let seq ← bigEndianUint16 (buf.drop 2)
  let t ← headByte (buf.drop 4)
  let (ev, valueN, rest) ← ntEntryValue.Decode (Int.ofNat t) r1
  .ok ({ ID := idv, SequenceNumber := seq, EntryValue := ev }, 5 + valueN, rest)

/-- Model of `ntEntryUpdate.Encode`. -/
def ntEntryUpdate.Encode (eu : ntEntryUpdate) : Except GoError (List Nat) := do
  let valueB ← eu.EntryValue.Encode
  .ok (putUint16 eu.ID ++ putUint16 eu.SequenceNumber ++
    [intToByte eu.EntryValue.EType] ++ valueB)

/-- Model of `ntEntryFlagsUpdate` (message.go). -/
structure ntEntryFlagsUpdate where
  ID : Nat
  EntryFlags : ntEntryFlags
  deriving DecidableEq

/-- Model of `ntEntryFlagsUpdate.Decode`. -/
def ntEntryFlagsUpdate.Decode (input : List Nat) :
    Except GoError (ntEntryFlagsUpdate × Nat × List Nat) := do
  let (buf, r1) ← readFull 2 input
  let idv ← bigEndianUint16 buf
  let (flags, flagN, rest) ← ntEntryFlags.Decode r1
  .ok ({ ID := idv, EntryFlags := flags }, 2 + flagN, rest)

/-- Model of `ntEntryFlagsUpdate.Encode`. -/
def ntEntryFlagsUpdate.Encode (efu : ntEntryFlagsUpdate) : List Nat :=
  putUint16 efu.ID ++ ntEntryFlags.Encode efu.EntryFlags

/-- Model of `ntEntryDelete` (message.go). -/
structure ntEntryDelete where
  ID : Nat
  deriving DecidableEq

/-- Model of `ntEntryDelete.Decode`. -/
def ntEntryDelete.Decode (input : List Nat) :
    Except GoError (ntEntryDelete × Nat × List Nat) := do
  let (buf, r1) ← readFull 2 input
  let idv ← bigEndianUint16 buf
  .ok ({ ID := idv }, 2, r1)

/-- Model of `ntEntryDelete.Encode`. -/
def ntEntryDelete.Encode (ed : ntEntryDelete) : List Nat :=
  putUint16 ed.ID

/-- Model of `ntClearAllEntries` (message.go); Go declares `Magic` as a
`uint64`. -/
structure ntClearAllEntries where
  ID : Nat
  Magic : Nat
  deriving DecidableEq

/-- Model of `ntClearAllEntries.Decode`: reads a 6-byte buffer, takes the
id from `buf[0:2]` and then calls `binary.BigEndian.Uint64(buf[2:6])`.
That call indexes `b[7]` of a 4-byte slice, so the real program panics
before `Magic` is ever produced; `bigEndianUint64` applied to the 4-byte
`buf.drop 2` reproduces this as the `panicked` error. -/
def ntClearAllEntries.Decode (input : List Nat) :
    Except GoError (ntClearAllEntries × Nat × List Nat) := do
  let (buf, rest) ← readFull 6 input
  let idv ← bigEndianUint16 buf
  let magic ← bigEndianUint64 (buf.drop 2)
  .ok ({ ID := idv, Magic := magic }, 6, rest)

/-- Model of `ntClearAllEntries.Encode`: the Go method allocates a 2-byte
buffer and then writes `PutUint16(buf[0:2])` followed by
`PutUint64(buf[2:6])`; slicing a capacity-2 buffer to `[2:6]` panics, so
the method can never produce bytes. -/
def ntClearAllEntries.Encode (_ : ntClearAllEntries) : Except GoError (List Nat) :=
  .error .panicked

/-- Store-side entry-type constants (part_002); Go `EntryType` is an `int`
with iota values.  They live in a namespace because `String` would clash
with the Lean type at top level. -/
def EntryType.Boolean : Int := 0

def EntryType.Double : Int := 1

def EntryType.RawData : Int := 2

def EntryType.String : Int := 3

def EntryType.BooleanArray : Int := 4

def EntryType.DoubleArray : Int := 5

def EntryType.StringArray : Int := 6

/-- Model of `EntryOptions` (part_002). -/
structure EntryOptions where
  Persist : Bool
  deriving DecidableEq

/-- Model of the store-side `EntryValue` struct (part_002); doubles are
IEEE-754 bit patterns, strings are byte lists. -/
structure EntryValue where
  EntryType : Int
  Boolean : Bool
  Double : Nat
  RawData : List Nat
  String : List Nat
  BooleanArray : List Bool
  DoubleArray : List Nat
  StringArray : List (List Nat)
  deriving DecidableEq

/-- Model of `Entry` (part_002); Go `int` fields become `Int`. -/
structure Entry where
  ID : Int
  SequenceNumber : Int
  Name : List Nat
  Options : EntryOptions
  Value : EntryValue
  deriving DecidableEq

/-- Model of `entryTypeFromNt` (client.go). -/
def entryTypeFromNt (nt : Int) : Int :=
  if nt = booleanEntryType then EntryType.Boolean
  else if nt = doubleEntryType then EntryType.Double
  else if nt = rawDataEntryType then EntryType.RawData
  else if nt = stringEntryType then EntryType.String
  else if nt = booleanArrayEntryType then EntryType.BooleanArray
  else if nt = doubleArrayEntryType then EntryType.DoubleArray
  else if nt = stringArrayEntryType then EntryType.StringArray
  else -1

/-- Model of `ntFromEntryType` (client.go). -/
def ntFromEntryType (t : Int) : Int :=
  if t = EntryType.Boolean then booleanEntryType
  else if t = EntryType.Double then doubleEntryType
  else if t = EntryType.RawData then rawDataEntryType
  else if t = EntryType.String then stringEntryType
  else if t = EntryType.BooleanArray then booleanArrayEntryType
  else if t = EntryType.DoubleArray then doubleArrayEntryType
  else if t = EntryType.StringArray then stringArrayEntryType
  else -1

/-- Model of `entryOptionsFromNt` (client.go). -/
def entryOptionsFromNt (nt : ntEntryFlags) : EntryOptions :=
  { Persist := nt.Persist }

/-- Model of `ntFromEntryOptions` (client.go). -/
def ntFromEntryOptions (o : EntryOptions) : ntEntryFlags :=
  { Persist := o.Persist }

/-- Model of `entryValueFromNt` (client.go). -/
def entryValueFromNt (nt : ntEntryValue) : EntryValue where
  EntryType := entryTypeFromNt nt.EType
  Boolean := nt.BooleanValue
  Double := nt.DoubleValue
  RawData := nt.RawDataValue
  String := nt.StringValue
  BooleanArray := nt.BooleanArrayValue
  DoubleArray := nt.DoubleArrayValue
  StringArray := nt.StringArrayValue

/-- Model of `ntFromEntryValue` (client.go). -/
def ntFromEntryValue (v : EntryValue) : ntEntryValue where
  EType := ntFromEntryType v.EntryType
  BooleanValue := v.Boolean
  DoubleValue := v.Double
  RawDataValue := v.RawData
  StringValue := v.String
  BooleanArrayValue := v.BooleanArray
  DoubleArrayValue := v.DoubleArray
  StringArrayValue := v.StringArray

/-- Model of `entryFromAssignment` (client.go): `int(nt.ID)` and
`int(nt.SequenceNumber)` are exact since `uint16` fits in `int`. -/
def entryFromAssignment (nt : ntEntryAssignment) : Entry where
  ID := Int.ofNat nt.ID
  SequenceNumber := Int.ofNat nt.SequenceNumber
  Name := nt.Name
  Options := entryOptionsFromNt nt.EntryFlags
  Value := entryValueFromNt nt.EntryValue

/-- Model of `assignmentFromEntry` (client.go): `uint16(...)` truncates. -/
def assignmentFromEntry (id : Int) (e : Entry) : ntEntryAssignment where
  Name := e.Name
  ID := intToUint16 id
  SequenceNumber := intToUint16 e.SequenceNumber
  EntryFlags := { Persist := e.Options.Persist }
  EntryValue := ntFromEntryValue e.Value

/-- Model of the contents of the badger database behind `badgerDB`
(part_002), split into the five key families used by the implementation;
see the header comment for why the split is faithful. -/
structure BadgerDB where
  values : List (Int × EntryValue)
  opts : List (Int × EntryOptions)
  seqs : List (Int × Int)
  names : List (List Nat × Int)
  ids : List (Int × List Nat)
  deriving DecidableEq

/-- The empty database, as produced by opening a fresh in-memory badger. -/
def BadgerDB.empty : BadgerDB where
  values := []
  opts := []
  seqs := []
  names := []
  ids := []

/-- Model of `getID` (part_002): lookup of key `names/<name>`; a missing
key is badger's not-found error. -/
def getID (name : List Nat) (b : BadgerDB) : Except GoError Int :=
  match alGet b.names name with
  | some id => .ok id
  | none => .error .notFound

/-- Model of `getSequenceNumber` (part_002). -/
def getSequenceNumber (id : Int) (b : BadgerDB) : Except GoError Int :=
  match alGet b.seqs id with
  | some seq => .ok seq
  | none => .error .notFound

/-- Model of `getValue` (part_002); the gob decode of stored bytes is the
identity of this model. -/
def getValue (id : Int) (b : BadgerDB) : Except GoError EntryValue :=
  match alGet b.values id with
  | some v => .ok v
  | none => .error .notFound

/-- Model of `getOptions` (part_002). -/
def getOptions (id : Int) (b : BadgerDB) : Except GoError EntryOptions :=
  match alGet b.opts id with
  | some o => .ok o
  | none => .error .notFound

/-- Model of `getName` (part_002): lookup of key `ids/<id>`. -/
def getName (id : Int) (b : BadgerDB) : Except GoError (List Nat) :=
  match alGet b.ids id with
  | some n => .ok n
  | none => .error .notFound

/-- Model of `badgerDB.GetByName` (part_002). -/
def BadgerDB.GetByName (name : List Nat) (b : BadgerDB) : Except GoError Entry := do
  let id ← getID name b
  let seq ← getSequenceNumber id b
  let v ← getValue id b
  let o ← getOptions id b
  .ok { ID := id, SequenceNumber := seq, Name := name, Options := o, Value := v }

/-- Model of `badgerDB.GetIDSeq` (part_002). -/
def BadgerDB.GetIDSeq (name : List Nat) (b : BadgerDB) : Except GoError (Int × Int) := do
  let id ← getID name b
  let seq ← getSequenceNumber id b
  .ok (id, seq)

/-- Model of `badgerDB.GetNames` (part_002): the keys of the `names/`
family (badger iterates them in byte order; only membership matters for
the theorems below). -/
def BadgerDB.GetNames (b : BadgerDB) : List (List Nat) :=
  b.names.map Prod.fst

/-- Model of `deleteEntry` (part_002): deletes the five records for the
given id/name pair; deleting an absent key succeeds. -/
def deleteEntry (id : Int) (name : List Nat) (b : BadgerDB) : BadgerDB where
  values := alDel b.values id
  opts := alDel b.opts id
  seqs := alDel b.seqs id
  names := alDel b.names name
  ids := alDel b.ids id

/-- Model of `badgerDB.Create` (part_002).  The Go code first resolves the
id currently bound to the entry's name with `id, _ := getID(...)` —
ignoring the error, so an absent name yields the zero value `0` — then
removes that id/name pair with `deleteEntry` (also ignoring its error, but
the modelled `deleteEntry` always succeeds), then writes all five records
for the new entry.  The transaction's sets cannot fail, so `Create`
succeeds. -/
def BadgerDB.Create (e : Entry) (b : BadgerDB) : BadgerDB :=
  let id := match alGet b.names e.Name with
    | some i => i
    | none => 0
  let b1 := deleteEntry id e.Name b
  { values := alSet b1.values e.ID e.Value
    opts := alSet b1.opts e.ID e.Options
    seqs := alSet b1.seqs e.ID e.SequenceNumber
    names := alSet b1.names e.Name e.ID
    ids := alSet b1.ids e.ID e.Name }

/-- Model of `badgerDB.UpdateValue` (part_002): unconditionally sets the
`<id>/value` and `<id>/seq` records; there is no existence check, so it
succeeds whether or not the id is present. -/
def BadgerDB.UpdateValue (id : Int) (seq : Int) (ev : EntryValue) (b : BadgerDB) :
    Except GoError BadgerDB :=
  .ok { b with values := alSet b.values id ev, seqs := alSet b.seqs id seq }

/-- Model of `badgerDB.UpdateOptions` (part_002): unconditionally sets the
`<id>/opt` record; no existence check. -/
def BadgerDB.UpdateOptions (id : Int) (opt : EntryOptions) (b : BadgerDB) :
    Except GoError BadgerDB :=
  .ok { b with opts := alSet b.opts id opt }

/-- Model of `badgerDB.Delete` (part_002): resolves the name from the
reverse index (not-found error if absent, leaving the transaction
unapplied), then deletes the five records. -/
def BadgerDB.Delete (id : Int) (b : BadgerDB) : Except GoError BadgerDB := do
  let name ← getName id b
  .ok (deleteEntry id name b)

/-- Model of `badgerDB.DeleteByName` (part_002). -/
def BadgerDB.DeleteByName (name : List Nat) (b : BadgerDB) :
    Except GoError (Int × BadgerDB) := do
  let id ← getID name b
  .ok (id, deleteEntry id name b)

/-- Model of `badgerDB.Clear` (part_002): deletes every key in the
database. -/
def BadgerDB.Clear (_ : BadgerDB) : BadgerDB :=
  BadgerDB.empty

/-- One operation of the `Store` interface (part_002), for stating
invariants over arbitrary operation sequences. -/
inductive StoreOp where
  | create (e : Entry)
  | updateValue (id seq : Int) (v : EntryValue)
  | updateOptions (id : Int) (o : EntryOptions)
  | delete (id : Int)
  | deleteByName (name : List Nat)
  | clear
  deriving DecidableEq

/-- Applies one store operation; a failing operation leaves the database
unchanged (the badger transaction is discarded on error). -/
def applyOp (b : BadgerDB) : StoreOp → BadgerDB
  | .create e => BadgerDB.Create e b
  | .updateValue id seq v =>
    match BadgerDB.UpdateValue id seq v b with
    | .ok b' => b'
    | .error _ => b
  | .updateOptions id o =>
    match BadgerDB.UpdateOptions id o b with
    | .ok b' => b'
    | .error _ => b
  | .delete id =>
    match BadgerDB.Delete id b with
    | .ok b' => b'
    | .error _ => b
  | .deleteByName name =>
    match BadgerDB.DeleteByName name b with
    | .ok p => p.2
    | .error _ => b
  | .clear => BadgerDB.Clear b

/-- The database reached from an empty store by a sequence of store
operations. -/
def runOps (ops : List StoreOp) : BadgerDB :=
  ops.foldl applyOp BadgerDB.empty

/-- Model of `writeClientHello` (client.go): message type byte, then the
`clientHello` body.  The Go helper takes a `protocolRevision` parameter
but the body is built from the package constant `protocolVersion`
(client.go line 572), so the model takes only the identity. -/
def writeClientHello (identity : List Nat) : List Nat :=
  ntMessageType.Encode clientHelloMessageType ++ putUint16 protocolVersion ++
    ntString.Encode identity

/-- Model of `readServerHello` (client.go): decodes a message type; any
type other than `server-hello` is an error; otherwise decodes the hello
body and returns the seen flag and the server identity. -/
def readServerHello (input : List Nat) :
    Except GoError (Bool × List Nat × List Nat) := do
  let (t, _, r1) ← ntMessageType.Decode input
  if t ≠ serverHelloMessageType then .error .unexpectedMessage
  else do
    let (sh, _, rest) ← ntServerHello.Decode r1
    .ok (sh.ClientSeen, sh.ServerIdentity, rest)

/-- Model of `writeEntryAssignment` (client.go): message type byte, then
the assignment built by `assignmentFromEntry(int(createID), entry)`, so
the id field on the wire is always the sentinel `0xFFFF`. -/
def writeEntryAssignment (e : Entry) : Except GoError (List Nat) := do
  let body ← (assignmentFromEntry (Int.ofNat createID) e).Encode
  .ok (ntMessageType.Encode entryAssignmentMessageType ++ body)

/-- Model of `writeEntryUpdate` (client.go). -/
def writeEntryUpdate (id : Int) (seq : Int) (value : EntryValue) :
    Except GoError (List Nat) := do
  let update : ntEntryUpdate := { ID := intToUint16 id, SequenceNumber := intToUint16 seq,
                                  EntryValue := ntFromEntryValue value }
  let body ← update.Encode
  .ok (ntMessageType.Encode entryUpdateMessageType ++ body)

/-- Model of `writeDelete` (client.go). -/
def writeDelete (id : Int) : List Nat :=
  ntMessageType.Encode entryDeleteMessageType ++
    ntEntryDelete.Encode { ID := intToUint16 id }

/-- Model of `writeEntryFlagsUpdate` (client.go). -/
def writeEntryFlagsUpdate (id : Int) (opt : EntryOptions) : List Nat :=
  ntMessageType.Encode entryFlagsUpdateMessageType ++
    ntEntryFlagsUpdate.Encode { ID := intToUint16 id, EntryFlags := ntFromEntryOptions opt }

/-- Model of one iteration of the inbound dispatcher,
`Client.handleResponse` (client.go): reads a message type from the
connection, dispatches on it, and mutates the store.  The result is the
new store plus `none` on success or the error value otherwise; a
`panicked` "error" models an actual Go panic, which crashes the process
(there is no `recover`).  Logging is omitted. -/
def handleResponse (st : BadgerDB) (input : List Nat) : BadgerDB × Option GoError :=
  match ntMessageType.Decode input with
  | .error e => (st, some e)
  | .ok (t, _, rest) =>
    if t = keepAliveMessageType then (st, none)
    else if t = entryAssignmentMessageType then
      match ntEntryAssignment.Decode rest with
      | .error e => (st, some e)
      | .ok (a, _, _) => (BadgerDB.Create (entryFromAssignment a) st, none)
    else if t = entryUpdateMessageType then
      match ntEntryUpdate.Decode rest with
      | .error e => (st, some e)
      | .ok (u, _, _) =>
        match BadgerDB.UpdateValue (Int.ofNat u.ID) (Int.ofNat u.SequenceNumber)
            (entryValueFromNt u.EntryValue) st with
        | .error e => (st, some e)
        | .ok st' => (st', none)
    else if t = entryFlagsUpdateMessageType then
      match ntEntryFlagsUpdate.Decode rest with
      | .error e => (st, some e)
      | .ok (fu, _, _) =>
        match BadgerDB.UpdateOptions (Int.ofNat fu.ID) (entryOptionsFromNt fu.EntryFlags) st with
        | .error e => (st, some e)
        | .ok st' => (st', none)
    else if t = entryDeleteMessageType then
      match ntEntryDelete.Decode rest with
      | .error e => (st, some e)
      | .ok (d, _, _) =>
        match BadgerDB.Delete (Int.ofNat d.ID) st with
        | .error e => (st, some e)
        | .ok st' => (st', none)
    else if t = clearAllEntriesMessageType then
      match ntClearAllEntries.Decode rest with
      | .error e => (st, some e)
      | .ok (c, _, _) =>
        if c.Magic = clearAllEntriesMagic then (BadgerDB.Clear st, none)
        else (st, none)
    else (st, some .unknownMessage)

/-- Model of the assignment-receiving loop of `Client.handshake`
(client.go): reads messages until `server-hello-complete`; each
`entry-assignment` is decoded and written to the store with `Create`, and
its name is recorded; any other type aborts the handshake with an error.
The fuel is one more than the number of available bytes; every loop
iteration consumes at least the message-type byte, so the fuel never runs
out before the input does. -/
def handshakeLoop : Nat → BadgerDB → List Nat → List (List Nat) →
    BadgerDB × List (List Nat) × List Nat × Option GoError
  | 0, st, input, sn => (st, sn, input, some .shortRead)
  | fuel + 1, st, input, sn =>
    match ntMessageType.Decode input with
    | .error e => (st, sn, input, some e)
    | .ok (t, _, r1) =>
      if t = serverHelloCompleteMessageType then (st, sn, r1, none)
      else if t ≠ entryAssignmentMessageType then (st, sn, r1, some .unexpectedMessage)
      else
        match ntEntryAssignment.Decode r1 with
        | .error e => (st, sn, r1, some e)
        | .ok (a, _, r2) =>
          handshakeLoop fuel (BadgerDB.Create (entryFromAssignment a) st) r2 (a.Name :: sn)

/-- Model of the local-entry-sending phase of `Client.handshake`
(client.go): for each store name not received from the server this
session, fetch the entry and write an assignment (with the sentinel id,
via `writeEntryAssignment`); an error aborts the loop, keeping the bytes
already written. -/
def sendLocalEntries (st : BadgerDB) (serverNames : List (List Nat)) :
    List (List Nat) → List Nat × Option GoError
  | [] => ([], none)
  | name :: rest =>
    if name ∈ serverNames then sendLocalEntries st serverNames rest
    else
      match BadgerDB.GetByName name st with
      | .error e => ([], some e)
      | .ok e =>
        match writeEntryAssignment e with
        | .error er => ([], some er)
        | .ok w =>
          let (ws, res) := sendLocalEntries st serverNames rest
          (w ++ ws, res)

/-- Model of `Client.handshake` (client.go): sends the client hello,
reads the server hello (any other first message is an error), ingests the
assignment stream, sends assignments for the client-only names, then
sends `client-hello-complete`.  Returns the resulting store, the bytes
written to the wire, and the error if any phase failed (in which case the
completion message is never sent).  The identity is a parameter (the Go
code falls back to the host name, an environment query outside the
model). -/
def handshake (st0 : BadgerDB) (input : List Nat) (identity : List Nat) :
    BadgerDB × List Nat × Option GoError :=
  let hello := writeClientHello identity
  match readServerHello input with
  | .error e => (st0, hello, some e)
  | .ok (_, _, rest) =>
    match handshakeLoop (rest.length + 1) st0 rest [] with
    | (st1, _, _, some e) => (st1, hello, some e)
    | (st1, sn, _, none) =>
      match sendLocalEntries st1 sn (BadgerDB.GetNames st1) with
      | (w, some e) => (st1, hello ++ w, some e)
      | (w, none) =>
        (st1, hello ++ w ++ ntMessageType.Encode clientHelloCompleteMessageType, none)

/-- Result of `Client.getConn` (client.go) on a first use (no existing
connection). -/
structure ConnResult where
  err : Option GoError
  dispatcherSpawned : Bool
  store : BadgerDB
  handshakeErr : Option GoError
  deriving DecidableEq

/-- Model of `Client.getConn` (client.go) when no connection exists yet:
dial; on dial failure return the error.  Otherwise the code runs
`c.handshake()` *discarding its result* (line 220), unconditionally
spawns the listener goroutine running the inbound dispatcher, and returns
the connection with a nil error.  The handshake's own outcome is kept in
`handshakeErr` for inspection; `err` is what the caller of `getConn`
sees. -/
def getConn (st : BadgerDB) (input : List Nat) (identity : List Nat) (dialOk : Bool) :
    ConnResult :=
  if dialOk then
    let r := handshake st input identity
    { err := none, dispatcherSpawned := true, store := r.1, handshakeErr := r.2.2 }
  else
    { err := some .dialFailed, dispatcherSpawned := false, store := st, handshakeErr := none }

/-- Model of `Client.UpdateValue` (client.go): resolve `(id, seq)` from
the store (error if the name is unknown), write `(id, seq+1, value)` to
the store, then acquire the connection and write a single `entry-update`
message.  `connOk` models whether `getConn` succeeds and `writeOk`
whether the socket write succeeds; both failures happen after the store
mutation and do not roll it back.  The result is the final store, the
bytes put on the wire, and the error if any. -/
def clientUpdateValue (st : BadgerDB) (connOk writeOk : Bool) (name : List Nat)
    (value : EntryValue) : BadgerDB × List Nat × Option GoError :=
  match BadgerDB.GetIDSeq name st with
  | .error e => (st, [], some e)
  | .ok (id, seq) =>
    match BadgerDB.UpdateValue id (seq + 1) value st with
    | .error e => (st, [], some e)
    | .ok st' =>
      if !connOk then (st', [], some .dialFailed)
      else
        match writeEntryUpdate id (seq + 1) value with
        | .error e => (st', [], some e)
        | .ok w => if writeOk then (st', w, none) else (st', [], some .ioError)

/-- Model of `Client.Create` (client.go): acquires the connection and
writes an entry assignment with the sentinel id; the local store is never
touched. -/
def clientCreate (st : BadgerDB) (connOk : Bool) (e : Entry) :
    BadgerDB × List Nat × Option GoError :=
  if !connOk then (st, [], some .dialFailed)
  else
    match writeEntryAssignment e with
    | .error er => (st, [], some er)
    | .ok w => (st, w, none)

/-- The boolean variant of `ntEntryValue`: tag plus payload field, all
other fields at their zero values (which is what the Go decoder
produces). -/
def ntEntryValue.mkBoolean (b : Bool) : ntEntryValue :=
  { ntEntryValue.zero with EType := booleanEntryType, BooleanValue := b }

/-- The double variant (payload is the IEEE-754 bit pattern). -/
def ntEntryValue.mkDouble (bits : Nat) : ntEntryValue :=
  { ntEntryValue.zero with EType := doubleEntryType, DoubleValue := bits }

/-- The string variant. -/
def ntEntryValue.mkString (s : List Nat) : ntEntryValue :=
  { ntEntryValue.zero with EType := stringEntryType, StringValue := s }

/-- The raw-data variant. -/
def ntEntryValue.mkRawData (r : List Nat) : ntEntryValue :=
  { ntEntryValue.zero with EType := rawDataEntryType, RawDataValue := r }

/-- The boolean-array variant. -/
def ntEntryValue.mkBooleanArray (l : List Bool) : ntEntryValue :=
  { ntEntryValue.zero with EType := booleanArrayEntryType, BooleanArrayValue := l }

/-- The double-array variant. -/
def ntEntryValue.mkDoubleArray (l : List Nat) : ntEntryValue :=
  { ntEntryValue.zero with EType := doubleArrayEntryType, DoubleArrayValue := l }

/-- The string-array variant. -/
def ntEntryValue.mkStringArray (l : List (List Nat)) : ntEntryValue :=
  { ntEntryValue.zero with EType := stringArrayEntryType, StringArrayValue := l }

/-- Round-trip property for one entry value: encoding succeeds and
decoding the encoded bytes (before any subsequent wire data) restores the
value exactly, consuming exactly the bytes that were written. -/
def RoundTrips (v : ntEntryValue) : Prop :=
  ∀ rest, ∃ w, ntEntryValue.Encode v = .ok w ∧
    ntEntryValue.Decode v.EType (w ++ rest) = .ok (v, w.length, rest)

/-- Consistency of the reverse index: every `ids/<id>` record points to a
name whose `names/<name>` record points back to the same id. -/
def IdIndexConsistent (b : BadgerDB) : Prop :=
  ∀ id name, alGet b.ids id = some name → alGet b.names name = some id

/-- A sample entry value (boolean true) used for concrete instances. -/
def sampleValue : EntryValue where
  EntryType := EntryType.Boolean
  Boolean := true
  Double := 0
  RawData := []
  String := []
  BooleanArray := []
  DoubleArray := []
  StringArray := []

/-- A sample entry named `"y"` with id 7, used for concrete instances. -/
def sampleEntry : Entry where
  ID := 7
  SequenceNumber := 0
  Name := [121]
  Options := { Persist := false }
  Value := sampleValue

/-- Entry id 1 named `"a"`, for the store-invariant counterexample. -/
def entryA : Entry where
  ID := 1
  SequenceNumber := 0
  Name := [97]
  Options := { Persist := false }
  Value := sampleValue

/-- Entry id 1 named `"b"`: same id as `entryA` under a fresh name, as a
server may issue after reusing a freed id. -/
def entryB : Entry where
  ID := 1
  SequenceNumber := 0
  Name := [98]
  Options := { Persist := false }
  Value := sampleValue

/-! Helper lemmas about the ULEB128 codec. -/

theorem lor_mul_two_pow : ∀ s x g : Nat, x < 2 ^ s → x ||| g * 2 ^ s = x + g * 2 ^ s := by
  intro s
  induction s with
  | zero =>
    intro x g h
    have hx : x = 0 := by omega
    subst hx
    simp
  | succ s ih =>
    intro x g h
    have hb := Nat.bit_decide_mod_two_eq_one_shiftRight_one x
    have hxh : x >>> 1 = x / 2 := Nat.shiftRight_one x
    have hpow : (2 : Nat) ^ (s + 1) = 2 * 2 ^ s := by ring
    have hlt : x / 2 < 2 ^ s := by omega
    have h2 : g * 2 ^ (s + 1) = Nat.bit false (g * 2 ^ s) := by
      rw [Nat.bit_val]
      simp
      ring
    calc x ||| g * 2 ^ (s + 1)
        = Nat.bit (decide (x % 2 = 1)) (x >>> 1) ||| Nat.bit false (g * 2 ^ s) := by
          rw [hb, ← h2]
      _ = Nat.bit (decide (x % 2 = 1) || false) ((x >>> 1) ||| g * 2 ^ s) :=
          Nat.lor_bit ..
      _ = Nat.bit (decide (x % 2 = 1)) (x / 2 + g * 2 ^ s) := by
          rw [Bool.or_false, hxh, ih (x / 2) g hlt]
      _ = x + g * 2 ^ (s + 1) := by
          rw [Nat.bit_val]
          have hd : (decide (x % 2 = 1)).toNat = x % 2 := by
            by_cases hp : x % 2 = 1
            · simp [hp]
            · simp [hp]
              omega
          rw [hd]
          have hg2 : g * 2 ^ (s + 1) = 2 * (g * 2 ^ s) := by rw [hpow]; ring
          omega

theorem uleb_step (x s b : Nat) (hx : x < 2 ^ min s 64) :
    x ||| ((0x7F &&& b) <<< s) % 2 ^ 64 = (x + b % 128 * 2 ^ s) % 2 ^ 64 ∧
      (x + b % 128 * 2 ^ s) % 2 ^ 64 < 2 ^ min (s + 7) 64 := by
  have hg : 0x7F &&& b = b % 128 := by
    rw [Nat.and_comm]
    have h127 : (127 : Nat) = 2 ^ 7 - 1 := by norm_num
    rw [show (0x7F : Nat) = 2 ^ 7 - 1 from by norm_num]
    exact Nat.and_pow_two_sub_one_eq_mod b 7
  have hsl : (0x7F &&& b) <<< s = b % 128 * 2 ^ s := by
    rw [hg, Nat.shiftLeft_eq]
  rw [hsl]
  have hb128 : b % 128 < 128 := Nat.mod_lt _ (by norm_num)
  rcases Nat.lt_or_ge s 64 with hs | hs
  · have hmin : min s 64 = s := by omega
    rw [hmin] at hx
    rcases le_or_lt (s + 7) 64 with hs7 | hs7
    · -- no truncation: everything stays below 2^64
      have hmin7 : min (s + 7) 64 = s + 7 := by omega
      have hpow : (2 : Nat) ^ (s + 7) ≤ 2 ^ 64 := Nat.pow_le_pow_right (by norm_num) hs7
      have hexp : (2 : Nat) ^ (s + 7) = 2 ^ s * 128 := by
        rw [pow_add]; norm_num
      have hsum : x + b % 128 * 2 ^ s < 2 ^ (s + 7) := by
        have h1 : b % 128 * 2 ^ s ≤ 127 * 2 ^ s :=
          Nat.mul_le_mul_right (2 ^ s) (show b % 128 ≤ 127 by omega)
        nlinarith [Nat.two_pow_pos s]
      have hlt64 : x + b % 128 * 2 ^ s < 2 ^ 64 := lt_of_lt_of_le hsum hpow
      have hshift : b % 128 * 2 ^ s % 2 ^ 64 = b % 128 * 2 ^ s :=
        Nat.mod_eq_of_lt (lt_of_le_of_lt (Nat.le_add_left _ x) hlt64)
      rw [hshift, lor_mul_two_pow s x _ hx, Nat.mod_eq_of_lt hlt64, hmin7]
      exact ⟨rfl, hsum⟩
    · -- partial truncation: s < 64 < s + 7
      have hmin7 : min (s + 7) 64 = 64 := by omega
      have hsplit : (2 : Nat) ^ 64 = 2 ^ s * 2 ^ (64 - s) := by
        rw [← pow_add]
        congr 1
        omega
      have hDsplit : ∀ D : Nat, D * 2 ^ s =
          D % 2 ^ (64 - s) * 2 ^ s + D / 2 ^ (64 - s) * 2 ^ 64 := by
        intro D
        conv_lhs => rw [← Nat.div_add_mod D (2 ^ (64 - s))]
        rw [hsplit]
        ring
      have htrunc : b % 128 * 2 ^ s % 2 ^ 64 = b % 128 % 2 ^ (64 - s) * 2 ^ s := by
        rw [hsplit, Nat.mul_comm (b % 128) (2 ^ s), Nat.mul_mod_mul_left,
          Nat.mul_comm (2 ^ s) _]
      have hr : b % 128 % 2 ^ (64 - s) < 2 ^ (64 - s) := Nat.mod_lt _ (Nat.two_pow_pos _)
      have hsum : x + b % 128 % 2 ^ (64 - s) * 2 ^ s < 2 ^ 64 := by
        have h1 : b % 128 % 2 ^ (64 - s) * 2 ^ s ≤ (2 ^ (64 - s) - 1) * 2 ^ s :=
          Nat.mul_le_mul_right (2 ^ s) (by omega)
        have h2 : (2 ^ (64 - s) - 1) * 2 ^ s + 2 ^ s = 2 ^ 64 := by
          have h3 : (2 ^ (64 - s) - 1) * 2 ^ s + 2 ^ s = 2 ^ (64 - s) * 2 ^ s := by
            have hBpos := Nat.two_pow_pos (64 - s)
            have hle : 2 ^ s ≤ 2 ^ (64 - s) * 2 ^ s :=
              Nat.le_mul_of_pos_left _ hBpos
            rw [Nat.sub_mul, Nat.one_mul]
            omega
          rw [h3, hsplit, Nat.mul_comm]
        omega
      have hdecomp : (x + b % 128 * 2 ^ s) % 2 ^ 64 =
          x + b % 128 % 2 ^ (64 - s) * 2 ^ s := by
        rw [show x + b % 128 * 2 ^ s = x + b % 128 % 2 ^ (64 - s) * 2 ^ s +
          b % 128 / 2 ^ (64 - s) * 2 ^ 64 from by rw [hDsplit (b % 128)]; ring,
          Nat.add_mul_mod_self_right]
        exact Nat.mod_eq_of_lt hsum
      rw [htrunc, hdecomp, lor_mul_two_pow s x _ hx, hmin7]
      exact ⟨rfl, hsum⟩
  · -- the whole group is shifted past bit 63 and vanishes
    have hmin : min s 64 = 64 := by omega
    rw [hmin] at hx
    have hmin7 : min (s + 7) 64 = 64 := by omega
    have hsplit : (2 : Nat) ^ s = 2 ^ 64 * 2 ^ (s - 64) := by
      rw [← pow_add]
      congr 1
      omega
    have hkey : x + b % 128 * 2 ^ s = x + b % 128 * 2 ^ (s - 64) * 2 ^ 64 := by
      rw [hsplit]
      ring
    have htrunc : b % 128 * 2 ^ s % 2 ^ 64 = 0 := by
      rw [hsplit, ← Nat.mul_assoc, Nat.mul_comm (b % 128) (2 ^ 64), Nat.mul_assoc,
        Nat.mul_mod_right]
    have hdecomp : (x + b % 128 * 2 ^ s) % 2 ^ 64 = x := by
      rw [hkey, Nat.add_mul_mod_self_right]
      exact Nat.mod_eq_of_lt hx
    rw [htrunc, Nat.or_zero, hdecomp, hmin7]
    exact ⟨rfl, hx⟩

theorem uleb_decodeAux_spec : ∀ (input : List Nat) (x s total : Nat),
    x < 2 ^ min s 64 →
    uleb128.DecodeAux input x s total =
      match ulebSplit input with
      | none => .error .shortRead
      | some (bs, rest) => .ok ((x + ulebVal bs s) % 2 ^ 64, total + bs.length, rest) := by
  intro input
  induction input with
  | nil => intro x s total _; rfl
  | cons b rest ih =>
    intro x s total hx
    obtain ⟨hstep, hbound⟩ := uleb_step x s b hx
    by_cases hcont : b &&& 0x80 = 0
    · simp only [uleb128.DecodeAux, ulebSplit, hcont, if_pos]
      simp only [ulebVal, List.length_cons, List.length_nil]
      rw [hstep]
      simp [ulebVal]
    · simp only [uleb128.DecodeAux, ulebSplit, hcont, if_neg, ite_false]
      rw [ih _ (s + 7) (total + 1) (hstep ▸ hbound)]
      cases hsp : ulebSplit rest with
      | none => simp
      | some p =>
        obtain ⟨bs, r⟩ := p
        simp only [Option.map_some, ulebVal, List.length_cons]
        have h1 : ((x + b % 128 * 2 ^ s) % 2 ^ 64 + ulebVal bs (s + 7)) % 2 ^ 64 =
            (x + (b % 128 * 2 ^ s + ulebVal bs (s + 7))) % 2 ^ 64 := by
          rw [Nat.mod_add_mod, Nat.add_assoc]
        have h2 : total + 1 + bs.length = total + (bs.length + 1) := by omega
        rw [hstep, h1, h2]
        rfl

theorem uleb_decode_spec (input : List Nat) (bs rest : List Nat)
    (h : ulebSplit input = some (bs, rest)) :
    uleb128.Decode input = .ok (ulebVal bs 0 % 2 ^ 64, bs.length, rest) := by
  have hs := uleb_decodeAux_spec input 0 0 0 (by norm_num)
  rw [uleb128.Decode, hs, h]
  simp

theorem uleb_decode_short (input : List Nat) (h : ulebSplit input = none) :
    uleb128.Decode input = .error .shortRead := by
  have := uleb_decodeAux_spec input 0 0 0 (by norm_num)
  rw [uleb128.Decode, this, h]

theorem and_128_eq_zero_iff (v : Nat) (h : v < 256) : v &&& 128 = 0 ↔ v < 128 := by
  have hand := Nat.and_two_pow v 7
  rw [show (2 : Nat) ^ 7 = 128 from by norm_num] at hand
  constructor
  · intro h0
    by_contra hge
    have hbit : v.testBit 7 = true := by
      have hv : v = 2 ^ 7 + (v - 128) := by norm_num; omega
      rw [hv, Nat.testBit_two_pow_add_eq,
        Nat.testBit_lt_two_pow (show v - 128 < 2 ^ 7 by norm_num; omega)]
      rfl
    rw [hbit] at hand
    simp at hand
    omega
  · intro hlt
    have hbit : v.testBit 7 = false := Nat.testBit_lt_two_pow (by norm_num; omega)
    rw [hbit] at hand
    simpa using hand

theorem uleb_encodeAux_congr : ∀ f1 f2 v : Nat, v < f1 → v < f2 →
    uleb128.EncodeAux f1 v = uleb128.EncodeAux f2 v := by
  intro f1
  induction f1 with
  | zero => intro f2 v h1; omega
  | succ f1 ih =>
    intro f2 v h1 h2
    cases f2 with
    | zero => omega
    | succ f2 =>
      rw [uleb128.EncodeAux, uleb128.EncodeAux]
      by_cases h : v < 128
      · rw [if_pos h, if_pos h]
      · rw [if_neg h, if_neg h,
          ih f2 (v / 128) (by omega) (by omega)]

theorem uleb_encode_unfold (v : Nat) : uleb128.Encode v =
    if v < 128 then [v] else (v % 128 + 128) :: uleb128.Encode (v / 128) := by
  rw [uleb128.Encode, uleb128.Encode, uleb128.EncodeAux]
  by_cases h : v < 128
  · rw [if_pos h, if_pos h]
  · rw [if_neg h, if_neg h,
      uleb_encodeAux_congr v (v / 128 + 1) (v / 128) (by omega) (by omega)]

theorem ulebSplit_encode (v : Nat) : ∀ rest : List Nat,
    ulebSplit (uleb128.Encode v ++ rest) = some (uleb128.Encode v, rest) := by
  induction v using Nat.strong_induction_on with
  | _ v ih =>
    intro rest
    rw [uleb_encode_unfold]
    by_cases h : v < 128
    · simp only [if_pos h, List.cons_append, List.nil_append, ulebSplit]
      rw [if_pos ((and_128_eq_zero_iff v (by omega)).mpr h)]
    · simp only [if_neg h, List.cons_append, ulebSplit]
      have hb : ¬(v % 128 + 128) &&& 128 = 0 := by
        rw [and_128_eq_zero_iff (v % 128 + 128) (by omega)]
        omega
      rw [if_neg hb, ih (v / 128) (Nat.div_lt_self (by omega) (by omega)) rest]
      rfl

theorem ulebVal_encode (v : Nat) : ∀ s : Nat, ulebVal (uleb128.Encode v) s = v * 2 ^ s := by
  induction v using Nat.strong_induction_on with
  | _ v ih =>
    intro s
    rw [uleb_encode_unfold]
    by_cases h : v < 128
    · simp only [if_pos h, ulebVal]
      rw [Nat.mod_eq_of_lt h]
      omega
    · simp only [if_neg h, ulebVal]
      rw [ih (v / 128) (Nat.div_lt_self (by omega) (by omega)) (s + 7)]
      have hp : (2 : Nat) ^ (s + 7) = 2 ^ s * 128 := by
        rw [pow_add]
        norm_num
      have hm : (v % 128 + 128) % 128 = v % 128 := by omega
      rw [hm, hp]
      have hv : v = 128 * (v / 128) + v % 128 := by omega
      conv_rhs => rw [hv]
      ring

theorem uleb_roundtrip (v : Nat) (rest : List Nat) :
    uleb128.Decode (uleb128.Encode v ++ rest) =
      .ok (v % 2 ^ 64, (uleb128.Encode v).length, rest) := by
  rw [uleb_decode_spec _ _ _ (ulebSplit_encode v rest), ulebVal_encode v 0]
  simp

/-! Helper lemmas about the fixed-width primitives. -/

theorem readFull_append (l rest : List Nat) :
    readFull l.length (l ++ rest) = .ok (l, rest) := by
  simp [readFull]

theorem readFull_append_of_length (n : Nat) (l rest : List Nat) (h : l.length = n) :
    readFull n (l ++ rest) = .ok (l, rest) := by
  subst h
  exact readFull_append l rest

theorem putUint64_length (v : Nat) : (putUint64 v).length = 8 := rfl

theorem bigEndianUint64_putUint64 (v : Nat) (h : v < 2 ^ 64) :
    bigEndianUint64 (putUint64 v) = .ok v := by
  simp only [putUint64, bigEndianUint64]
  norm_num
  omega

@[simp] theorem exceptBind_ok {ε α β : Type} (a : α) (f : α → Except ε β) :
    (Except.ok a >>= f) = f a := rfl

@[simp] theorem exceptBind_error {ε α β : Type} (e : ε) (f : α → Except ε β) :
    (Except.error e >>= f : Except ε β) = Except.error e := rfl

theorem ntDouble_roundtrip (bits : Nat) (h : bits < 2 ^ 64) (rest : List Nat) :
    ntDouble.Decode (ntDouble.Encode bits ++ rest) = .ok (bits, 8, rest) := by
  rw [ntDouble.Decode, ntDouble.Encode,
    readFull_append_of_length 8 (putUint64 bits) rest (putUint64_length bits)]
  simp [bigEndianUint64_putUint64 bits h]

theorem ntBoolean_roundtrip (b : Bool) (rest : List Nat) :
    ntBoolean.Decode (ntBoolean.Encode b ++ rest) = .ok (b, 1, rest) := by
  cases b <;> rfl

theorem ntEntryFlags_roundtrip (f : ntEntryFlags) (rest : List Nat) :
    ntEntryFlags.Decode (ntEntryFlags.Encode f ++ rest) = .ok (f, 1, rest) := by
  obtain ⟨p⟩ := f
  cases p <;> rfl

theorem ntRawData_roundtrip (v : List Nat) (h : v.length < 2 ^ 64) (rest : List Nat) :
    ntRawData.Decode (ntRawData.Encode v ++ rest) =
      .ok (v, (uleb128.Encode v.length).length + v.length, rest) := by
  rw [ntRawData.Decode, ntRawData.Encode, List.append_assoc,
    uleb_roundtrip v.length (v ++ rest)]
  rw [exceptBind_ok]
  simp only [Nat.mod_eq_of_lt h]
  rw [readFull_append v rest]
  rfl

theorem ntString_roundtrip (v : List Nat) (h : v.length < 2 ^ 64) (rest : List Nat) :
    ntString.Decode (ntString.Encode v ++ rest) =
      .ok (v, (uleb128.Encode v.length).length + v.length, rest) :=
  ntRawData_roundtrip v h rest

/-! Helper lemmas about the array element loops. -/

theorem ntBooleanArray_aux_spec (l : List Bool) (rest : List Nat) :
    ntBooleanArray.DecodeAux l.length ((l.map ntBoolean.Encode).flatten ++ rest) =
      .ok (l, l.length, rest) := by
  induction l generalizing rest with
  | nil => rfl
  | cons b bs ih =>
    simp only [List.map_cons, List.flatten_cons, List.length_cons, List.append_assoc]
    rw [ntBooleanArray.DecodeAux, ntBoolean_roundtrip b _, exceptBind_ok]
    simp [ih rest, Nat.add_comm]

theorem ntDoubleArray_aux_spec (l : List Nat) (hl : ∀ x ∈ l, x < 2 ^ 64)
    (rest : List Nat) :
    ntDoubleArray.DecodeAux l.length ((l.map ntDouble.Encode).flatten ++ rest) =
      .ok (l, 8 * l.length, rest) := by
  induction l generalizing rest with
  | nil => rfl
  | cons d ds ih =>
    simp only [List.map_cons, List.flatten_cons, List.length_cons, List.append_assoc]
    rw [ntDoubleArray.DecodeAux, ntDouble_roundtrip d (hl d (by simp)) _, exceptBind_ok]
    have ih' := ih (fun x hx => hl x (by simp [hx])) rest
    simp [ih']
    ring

theorem ntStringArray_aux_spec (l : List (List Nat)) (hl : ∀ s ∈ l, s.length < 2 ^ 64)
    (rest : List Nat) :
    ntStringArray.DecodeAux l.length ((l.map ntString.Encode).flatten ++ rest) =
      .ok (l, ((l.map ntString.Encode).flatten).length, rest) := by
  induction l generalizing rest with
  | nil => rfl
  | cons s ss ih =>
    simp only [List.map_cons, List.flatten_cons, List.length_cons, List.append_assoc]
    rw [ntStringArray.DecodeAux, ntString_roundtrip s (hl s (by simp)) _, exceptBind_ok]
    have ih' := ih (fun x hx => hl x (by simp [hx])) rest
    simp [ih', ntString.Encode, ntRawData.Encode]
    ring

theorem ntBooleanArray_roundtrip (l : List Bool) (h : l.length < 256) (rest : List Nat) :
    ntBooleanArray.Decode (ntBooleanArray.Encode l ++ rest) =
      .ok (l, 1 + l.length, rest) := by
  rw [ntBooleanArray.Encode]
  simp only [List.cons_append]
  rw [ntBooleanArray.Decode]
  have hm : l.length % 256 % 256 = l.length := by omega
  rw [hm, ntBooleanArray_aux_spec l rest]
  rfl

theorem ntDoubleArray_roundtrip (l : List Nat) (h : l.length < 256)
    (hl : ∀ x ∈ l, x < 2 ^ 64) (rest : List Nat) :
    ntDoubleArray.Decode (ntDoubleArray.Encode l ++ rest) =
      .ok (l, 1 + 8 * l.length, rest) := by
  rw [ntDoubleArray.Encode]
  simp only [List.cons_append]
  rw [ntDoubleArray.Decode]
  have hm : l.length % 256 % 256 = l.length := by omega
  rw [hm, ntDoubleArray_aux_spec l hl rest]
  rfl

theorem ntStringArray_roundtrip (l : List (List Nat)) (h : l.length < 256)
    (hl : ∀ s ∈ l, s.length < 2 ^ 64) (rest : List Nat) :
    ntStringArray.Decode (ntStringArray.Encode l ++ rest) =
      .ok (l, 1 + ((l.map ntString.Encode).flatten).length, rest) := by
  rw [ntStringArray.Encode]
  simp only [List.cons_append]
  rw [ntStringArray.Decode]
  have hm : l.length % 256 % 256 = l.length := by omega
  rw [hm, ntStringArray_aux_spec l hl rest]
  rfl

theorem ntBooleanArray_encode_length (l : List Bool) :
    (ntBooleanArray.Encode l).length = 1 + l.length := by
  induction l with
  | nil => rfl
  | cons b bs ih =>
    simp [ntBooleanArray.Encode, ntBoolean.Encode] at ih ⊢
    omega

theorem ntDoubleArray_encode_length (l : List Nat) :
    (ntDoubleArray.Encode l).length = 1 + 8 * l.length := by
  induction l with
  | nil => rfl
  | cons d ds ih =>
    simp [ntDoubleArray.Encode, ntDouble.Encode, putUint64] at ih ⊢
    omega

theorem ntStringArray_encode_length (l : List (List Nat)) :
    (ntStringArray.Encode l).length = 1 + ((l.map ntString.Encode).flatten).length := by
  simp [ntStringArray.Encode]
  omega

/-! Round-trip lemmas for each entry-value variant. -/

theorem roundTrips_mkBoolean (b : Bool) : RoundTrips (ntEntryValue.mkBoolean b) := by
  intro rest
  refine ⟨ntBoolean.Encode b, by cases b <;> rfl, ?_⟩
  have hw : (ntBoolean.Encode b).length = 1 := by cases b <;> rfl
  rw [hw]
  show ntEntryValue.Decode booleanEntryType (ntBoolean.Encode b ++ rest) = _
  rw [ntEntryValue.Decode, if_pos rfl, ntBoolean_roundtrip b rest]
  rfl

theorem roundTrips_mkDouble (bits : Nat) (h : bits < 2 ^ 64) :
    RoundTrips (ntEntryValue.mkDouble bits) := by
  intro rest
  refine ⟨ntDouble.Encode bits, rfl, ?_⟩
  have hw : (ntDouble.Encode bits).length = 8 := rfl
  rw [hw]
  show ntEntryValue.Decode doubleEntryType (ntDouble.Encode bits ++ rest) = _
  rw [ntEntryValue.Decode, if_neg (by decide), if_pos rfl, ntDouble_roundtrip bits h rest]
  rfl

theorem roundTrips_mkString (s : List Nat) (h : s.length < 2 ^ 64) :
    RoundTrips (ntEntryValue.mkString s) := by
  intro rest
  refine ⟨ntString.Encode s, rfl, ?_⟩
  have hw : (ntString.Encode s).length = (uleb128.Encode s.length).length + s.length := by
    simp [ntString.Encode, ntRawData.Encode]
  rw [hw]
  show ntEntryValue.Decode stringEntryType (ntString.Encode s ++ rest) = _
  rw [ntEntryValue.Decode, if_neg (by decide), if_neg (by decide), if_pos rfl,
    ntString_roundtrip s h rest]
  rfl

theorem roundTrips_mkRawData (r : List Nat) (h : r.length < 2 ^ 64) :
    RoundTrips (ntEntryValue.mkRawData r) := by
  intro rest
  refine ⟨ntRawData.Encode r, rfl, ?_⟩
  have hw : (ntRawData.Encode r).length = (uleb128.Encode r.length).length + r.length := by
    simp [ntRawData.Encode]
  rw [hw]
  show ntEntryValue.Decode rawDataEntryType (ntRawData.Encode r ++ rest) = _
  rw [ntEntryValue.Decode, if_neg (by decide), if_neg (by decide), if_neg (by decide),
    if_pos rfl, ntRawData_roundtrip r h rest]
  rfl

theorem roundTrips_mkBooleanArray (l : List Bool) (h : l.length < 256) :
    RoundTrips (ntEntryValue.mkBooleanArray l) := by
  intro rest
  refine ⟨ntBooleanArray.Encode l, rfl, ?_⟩
  rw [ntBooleanArray_encode_length l]
  show ntEntryValue.Decode booleanArrayEntryType (ntBooleanArray.Encode l ++ rest) = _
  rw [ntEntryValue.Decode, if_neg (by decide), if_neg (by decide), if_neg (by decide),
    if_neg (by decide), if_pos rfl, ntBooleanArray_roundtrip l h rest]
  rfl

theorem roundTrips_mkDoubleArray (l : List Nat) (h : l.length < 256)
    (hl : ∀ x ∈ l, x < 2 ^ 64) : RoundTrips (ntEntryValue.mkDoubleArray l) := by
  intro rest
  refine ⟨ntDoubleArray.Encode l, rfl, ?_⟩
  rw [ntDoubleArray_encode_length l]
  show ntEntryValue.Decode doubleArrayEntryType (ntDoubleArray.Encode l ++ rest) = _
  rw [ntEntryValue.Decode, if_neg (by decide), if_neg (by decide), if_neg (by decide),
    if_neg (by decide), if_neg (by decide), if_pos rfl,
    ntDoubleArray_roundtrip l h hl rest]
  rfl

theorem roundTrips_mkStringArray (l : List (List Nat)) (h : l.length < 256)
    (hl : ∀ s ∈ l, s.length < 2 ^ 64) : RoundTrips (ntEntryValue.mkStringArray l) := by
  intro rest
  refine ⟨ntStringArray.Encode l, rfl, ?_⟩
  rw [ntStringArray_encode_length l]
  show ntEntryValue.Decode stringArrayEntryType (ntStringArray.Encode l ++ rest) = _
  rw [ntEntryValue.Decode, if_neg (by decide), if_neg (by decide), if_neg (by decide),
    if_neg (by decide), if_neg (by decide), if_neg (by decide), if_pos rfl,
    ntStringArray_roundtrip l h hl rest]
  rfl

/-- C5: amended round-trip law.  For every entry-value variant whose array
payload (if any) has fewer than 256 elements, encoding succeeds and
decoding the encoded bytes restores the value exactly, consuming exactly
the bytes written; the entry-flags byte round-trips unconditionally.  The
numeric side conditions (`bits < 2^64`, lengths `< 2^64`) are guaranteed
by the Go types (`uint64` bit patterns, `int` slice lengths) and only
bound this model's unbounded `Nat`; the `< 256` array bound is a real
restriction, forced by the one-byte length prefix (see the
counterexample). -/
theorem C5_roundtrip_laws :
    (∀ b : Bool, RoundTrips (ntEntryValue.mkBoolean b)) ∧
    (∀ bits : Nat, bits < 2 ^ 64 → RoundTrips (ntEntryValue.mkDouble bits)) ∧
    (∀ s : List Nat, s.length < 2 ^ 64 → RoundTrips (ntEntryValue.mkString s)) ∧
    (∀ r : List Nat, r.length < 2 ^ 64 → RoundTrips (ntEntryValue.mkRawData r)) ∧
    (∀ l : List Bool, l.length < 256 → RoundTrips (ntEntryValue.mkBooleanArray l)) ∧
    (∀ l : List Nat, l.length < 256 → (∀ x ∈ l, x < 2 ^ 64) →
      RoundTrips (ntEntryValue.mkDoubleArray l)) ∧
    (∀ l : List (List Nat), l.length < 256 → (∀ s ∈ l, s.length < 2 ^ 64) →
      RoundTrips (ntEntryValue.mkStringArray l)) ∧
    (∀ (f : ntEntryFlags) (rest : List Nat),
      ntEntryFlags.Decode (ntEntryFlags.Encode f ++ rest) = .ok (f, 1, rest)) :=
  ⟨roundTrips_mkBoolean, roundTrips_mkDouble, roundTrips_mkString, roundTrips_mkRawData,
    roundTrips_mkBooleanArray, roundTrips_mkDoubleArray, roundTrips_mkStringArray,
    ntEntryFlags_roundtrip⟩

/-- C5 witness: the round-trip laws applied at concrete values, with every
hypothesis discharged by computation. -/
theorem C5_roundtrip_laws_witness :
    RoundTrips (ntEntryValue.mkDouble 7) ∧ RoundTrips (ntEntryValue.mkBooleanArray [true]) :=
  ⟨C5_roundtrip_laws.2.1 7 (by decide), C5_roundtrip_laws.2.2.2.2.1 [true] (by decide)⟩

set_option maxRecDepth 8192 in
/-- C5 counterexample: a 256-element boolean array does not round-trip.
Its one-byte length prefix is `uint8(256) = 0`, so the decoder reads back
the empty array after consuming 1 of the 257 encoded bytes; neither
`decode(encode(v)) = v` nor the byte-count equality holds. -/
theorem C5_counterexample :
    ntEntryValue.Encode (ntEntryValue.mkBooleanArray (List.replicate 256 false)) =
      .ok (0 :: List.replicate 256 0) ∧
    (0 :: List.replicate 256 0).length = 257 ∧
    ntEntryValue.Decode booleanArrayEntryType (0 :: List.replicate 256 0) =
      .ok (ntEntryValue.mkBooleanArray [], 1, List.replicate 256 0) ∧
    ntEntryValue.mkBooleanArray [] ≠
      ntEntryValue.mkBooleanArray (List.replicate 256 false) := by
  refine ⟨?_, by decide, ?_, by decide⟩
  · rfl
  · rfl

/-- C7: amended ULEB128 law.  The decoder has no overflow check: on any
input whose group sequence terminates it succeeds, returning the
mathematical ULEB128 value reduced modulo 2^64 (the Go `uint64`
accumulator drops every bit at position 64 or above), never a
`uleb_overflow` error. -/
theorem C7_uleb_no_overflow_check (input bs rest : List Nat)
    (h : ulebSplit input = some (bs, rest)) :
    uleb128.Decode input = .ok (ulebVal bs 0 % 2 ^ 64, bs.length, rest) :=
  uleb_decode_spec input bs rest h

/-- C7 witness: the amended law applied to the one-byte input `[5]`. -/
theorem C7_uleb_no_overflow_check_witness :
    uleb128.Decode [5] = .ok (ulebVal [5] 0 % 2 ^ 64, 1, []) :=
  C7_uleb_no_overflow_check [5] [5] [] (by decide)

/-- C7 counterexample: the ten-byte input encoding 2^64 — one past the
`uint64` maximum — is accepted, decoding to 0 (the value wrapped modulo
2^64) instead of being rejected with an overflow error. -/
theorem C7_counterexample :
    uleb128.Decode (List.replicate 9 0x80 ++ [0x02]) = .ok (0, 10, []) ∧
    ulebVal (List.replicate 9 0x80 ++ [0x02]) 0 = 2 ^ 64 := by
  constructor
  · rfl
  · rfl

/-- C1: on any inbound `clear-all-entries` message (type byte `0x14`
followed by at least the six bytes its decoder reads), the dispatcher
panics inside `ntClearAllEntries.Decode` — `binary.BigEndian.Uint64` is
applied to the four-byte slice `buf[2:6]` and indexes `b[7]` out of range
— before the magic value is ever produced.  The store is left unchanged
and is in particular never cleared, and the message is not dropped
silently: the process crashes (no `recover` exists on this path). -/
theorem C1_clear_all_entries_panics (st : BadgerDB) (b0 b1 b2 b3 b4 b5 : Nat)
    (rest : List Nat) :
    handleResponse st (clearAllEntriesMessageType :: b0 :: b1 :: b2 :: b3 :: b4 :: b5 :: rest) =
      (st, some .panicked) := by
  simp [handleResponse, ntMessageType.Decode, keepAliveMessageType,
    entryAssignmentMessageType, entryUpdateMessageType, entryFlagsUpdateMessageType,
    entryDeleteMessageType, clearAllEntriesMessageType, ntClearAllEntries.Decode,
    readFull, List.take, List.drop, bigEndianUint16, bigEndianUint64]

/-- C4: amended.  `UpdateValue` and `UpdateOptions` perform no existence
check at all: for every id — present or absent — they succeed,
unconditionally (over)writing the `<id>/value` and `<id>/seq` records
(respectively the `<id>/opt` record) and never touching the name↔id
indices, so an absent id silently acquires partial records instead of
producing a `not_found` error. -/
theorem C4_update_never_checks_existence (id seq : Int) (v : EntryValue)
    (o : EntryOptions) (st : BadgerDB) :
    BadgerDB.UpdateValue id seq v st =
      .ok { st with values := alSet st.values id v, seqs := alSet st.seqs id seq } ∧
    BadgerDB.UpdateOptions id o st = .ok { st with opts := alSet st.opts id o } :=
  ⟨rfl, rfl⟩

/-- C4 counterexample: on the empty store, where id 1 is absent, both
updates succeed — creating records for the absent id — instead of failing
with `not_found`. -/
theorem C4_counterexample :
    BadgerDB.UpdateValue 1 0 sampleValue BadgerDB.empty =
      .ok { BadgerDB.empty with values := [(1, sampleValue)], seqs := [(1, 0)] } ∧
    BadgerDB.UpdateValue 1 0 sampleValue BadgerDB.empty ≠ .error .notFound ∧
    BadgerDB.UpdateOptions 1 { Persist := true } BadgerDB.empty =
      .ok { BadgerDB.empty with opts := [(1, { Persist := true })] } ∧
    BadgerDB.UpdateOptions 1 { Persist := true } BadgerDB.empty ≠ .error .notFound := by
  exact ⟨rfl, fun h => Except.noConfusion h, rfl, fun h => Except.noConfusion h⟩

/-- C3: divergence at the failing input.  When the server's first reply is
`protocol-version-unsupported` (type byte `0x02`) — or any non-server-hello
type — `readServerHello` rejects it and `handshake` returns that error;
but `getConn` (client.go line 220) discards the handshake's result, still
spawns the inbound dispatcher goroutine, and hands the caller the
connection with a nil error, contradicting the specified fatal-error
behavior. -/
theorem C3_getConn_ignores_handshake_failure (st : BadgerDB) (rest identity : List Nat) :
    (handshake st (protocolVersionUnsupportedMessageType :: rest) identity).2.2 =
      some .unexpectedMessage ∧
    (getConn st (protocolVersionUnsupportedMessageType :: rest) identity true).err = none ∧
    (getConn st (protocolVersionUnsupportedMessageType :: rest) identity
      true).dispatcherSpawned = true := by
  have hhs : (handshake st (protocolVersionUnsupportedMessageType :: rest) identity).2.2 =
      some .unexpectedMessage := by
    simp [handshake, readServerHello, ntMessageType.Decode,
      protocolVersionUnsupportedMessageType, serverHelloMessageType]
  exact ⟨hhs, by simp [getConn], by simp [getConn]⟩

/-- C8: amended.  The client's own operations never write the sentinel to
the store: `Client.Create` leaves the store untouched and puts an
assignment with id `0xFFFF` on the wire only.  But the inbound dispatcher
stores an `entry-assignment`'s id verbatim, so a server (or misbehaving
peer) sending id `0xFFFF` makes the sentinel appear in the store — there
is no guard. -/
theorem C8_sentinel_only_on_wire_for_writes :
    (∀ (st : BadgerDB) (e : Entry) (w : List Nat), writeEntryAssignment e = .ok w →
      clientCreate st true e = (st, w, none) ∧
      (assignmentFromEntry (Int.ofNat createID) e).ID = 0xFFFF) ∧
    (∀ (st : BadgerDB) (input : List Nat) (a : ntEntryAssignment) (n : Nat)
      (r : List Nat), ntEntryAssignment.Decode input = .ok (a, n, r) →
      handleResponse st (entryAssignmentMessageType :: input) =
        (BadgerDB.Create (entryFromAssignment a) st, none) ∧
      (entryFromAssignment a).ID = Int.ofNat a.ID) := by
  constructor
  · intro st e w hw
    refine ⟨by simp [clientCreate, hw], ?_⟩
    simp [assignmentFromEntry, createID, intToUint16]
  · intro st input a n r ha
    refine ⟨?_, rfl⟩
    simp [handleResponse, ntMessageType.Decode, keepAliveMessageType,
      entryAssignmentMessageType, ha]

/-- C8 witness: both halves applied at a concrete entry and a concrete
inbound assignment frame. -/
theorem C8_sentinel_only_on_wire_for_writes_witness :
    (clientCreate BadgerDB.empty true sampleEntry =
      (BadgerDB.empty, [0x10, 1, 121, 0, 255, 255, 0, 0, 0, 1], none) ∧
      (assignmentFromEntry (Int.ofNat createID) sampleEntry).ID = 0xFFFF) ∧
    (handleResponse BadgerDB.empty
        (entryAssignmentMessageType :: [1, 120, 0x00, 0xFF, 0xFF, 0x00, 0x00, 0x00, 0x01]) =
      (BadgerDB.Create
        (entryFromAssignment ⟨[120], 0xFFFF, 0, ntEntryValue.mkBoolean true, ⟨false⟩⟩)
        BadgerDB.empty, none) ∧
      (entryFromAssignment
        ⟨[120], 0xFFFF, 0, ntEntryValue.mkBoolean true, ⟨false⟩⟩).ID =
        Int.ofNat 0xFFFF) :=
  ⟨C8_sentinel_only_on_wire_for_writes.1 BadgerDB.empty sampleEntry
      [0x10, 1, 121, 0, 255, 255, 0, 0, 0, 1] (by decide),
    C8_sentinel_only_on_wire_for_writes.2 BadgerDB.empty
      [1, 120, 0x00, 0xFF, 0xFF, 0x00, 0x00, 0x00, 0x01]
      ⟨[120], 0xFFFF, 0, ntEntryValue.mkBoolean true, ⟨false⟩⟩ 9 [] (by decide)⟩

/-- C8 counterexample: a store state reachable by one inbound dispatch —
an `entry-assignment` carrying id `0xFFFF` — contains an entry with id
`0xFFFF`, so the sentinel does appear in the store. -/
theorem C8_counterexample :
    (handleResponse BadgerDB.empty
        [0x10, 1, 120, 0x00, 0xFF, 0xFF, 0x00, 0x00, 0x00, 0x01]).2 = none ∧
    alGet (handleResponse BadgerDB.empty
        [0x10, 1, 120, 0x00, 0xFF, 0xFF, 0x00, 0x00, 0x00, 0x01]).1.ids 0xFFFF =
      some [120] := by
  exact ⟨rfl, by decide⟩

/-- C6: `Client.UpdateValue` on an existing entry resolves `(id, seq)`
from the store, writes the value under sequence number `seq + 1` to the
store, and puts exactly the bytes of one `entry-update` message for
`(id, seq + 1, value)` on the wire (the hypothesis names those bytes
through `writeEntryUpdate`, which builds a single message); when the
name has no entry the call fails with the store error and writes
nothing. -/
theorem C6_update_value_resolves_and_emits :
    (∀ (st : BadgerDB) (name : List Nat) (v : EntryValue) (id seq : Int) (w : List Nat),
      BadgerDB.GetIDSeq name st = .ok (id, seq) →
      writeEntryUpdate id (seq + 1) v = .ok w →
      clientUpdateValue st true true name v =
        ({ st with values := alSet st.values id v, seqs := alSet st.seqs id (seq + 1) },
          w, none)) ∧
    (∀ (st : BadgerDB) (name : List Nat) (v : EntryValue) (connOk writeOk : Bool)
      (e : GoError), BadgerDB.GetIDSeq name st = .error e →
      clientUpdateValue st connOk writeOk name v = (st, [], some e)) := by
  constructor
  · intro st name v id seq w h1 h2
    simp [clientUpdateValue, h1, BadgerDB.UpdateValue, h2]
  · intro st name v connOk writeOk e h
    simp [clientUpdateValue, h]

/-- C6 witness: both halves at concrete inputs — a store holding the entry
`"y" ↦ (id 7, seq 0)`, and the empty store for the failure half. -/
theorem C6_update_value_resolves_and_emits_witness :
    clientUpdateValue (BadgerDB.Create sampleEntry BadgerDB.empty) true true [121]
        sampleValue =
      ({ BadgerDB.Create sampleEntry BadgerDB.empty with
          values := alSet (BadgerDB.Create sampleEntry BadgerDB.empty).values 7 sampleValue,
          seqs := alSet (BadgerDB.Create sampleEntry BadgerDB.empty).seqs 7 1 },
        [0x11, 0, 7, 0, 1, 0, 1], none) ∧
    clientUpdateValue BadgerDB.empty true true [121] sampleValue =
      (BadgerDB.empty, [], some .notFound) :=
  ⟨C6_update_value_resolves_and_emits.1 (BadgerDB.Create sampleEntry BadgerDB.empty)
      [121] sampleValue 7 0 [0x11, 0, 7, 0, 1, 0, 1] (by decide) (by decide),
    C6_update_value_resolves_and_emits.2 BadgerDB.empty [121] sampleValue true true
      .notFound (by decide)⟩

/-- C10: when the store update has succeeded but connection acquisition or
the socket write then fails, `Client.UpdateValue` returns an error while
the store permanently keeps the new value and the incremented sequence
number — the local mutation is not rolled back. -/
theorem C10_store_keeps_update_on_wire_failure (st : BadgerDB) (name : List Nat)
    (v : EntryValue) (id seq : Int) (connOk writeOk : Bool)
    (hseq : BadgerDB.GetIDSeq name st = .ok (id, seq))
    (hfail : connOk = false ∨ writeOk = false) :
    (∃ e, (clientUpdateValue st connOk writeOk name v).2.2 = some e) ∧
    (clientUpdateValue st connOk writeOk name v).1 =
      { st with values := alSet st.values id v, seqs := alSet st.seqs id (seq + 1) } ∧
    alGet (clientUpdateValue st connOk writeOk name v).1.values id = some v ∧
    alGet (clientUpdateValue st connOk writeOk name v).1.seqs id = some (seq + 1) := by
  have hget : ∀ stx : BadgerDB, stx =
      { st with values := alSet st.values id v, seqs := alSet st.seqs id (seq + 1) } →
      alGet stx.values id = some v ∧ alGet stx.seqs id = some (seq + 1) := by
    intro stx hx
    subst hx
    simp [alGet_alSet]
  cases connOk with
  | false =>
    have hr : clientUpdateValue st false writeOk name v =
        ({ st with values := alSet st.values id v, seqs := alSet st.seqs id (seq + 1) },
          [], some .dialFailed) := by
      simp [clientUpdateValue, hseq, BadgerDB.UpdateValue]
    rw [hr]
    exact ⟨⟨.dialFailed, rfl⟩, rfl, hget _ rfl⟩
  | true =>
    have hw : writeOk = false := by
      rcases hfail with h | h
      · exact absurd h (by simp)
      · exact h
    subst hw
    cases henc : writeEntryUpdate id (seq + 1) v with
    | error e =>
      have hr : clientUpdateValue st true false name v =
          ({ st with values := alSet st.values id v, seqs := alSet st.seqs id (seq + 1) },
            [], some e) := by
        simp [clientUpdateValue, hseq, BadgerDB.UpdateValue, henc]
      rw [hr]
      exact ⟨⟨e, rfl⟩, rfl, hget _ rfl⟩
    | ok w =>
      have hr : clientUpdateValue st true false name v =
          ({ st with values := alSet st.values id v, seqs := alSet st.seqs id (seq + 1) },
            [], some .ioError) := by
        simp [clientUpdateValue, hseq, BadgerDB.UpdateValue, henc]
      rw [hr]
      exact ⟨⟨.ioError, rfl⟩, rfl, hget _ rfl⟩

/-- C10 witness: the failure behavior at a concrete store (entry
`"y" ↦ (id 7, seq 0)`) with connection acquisition failing. -/
theorem C10_store_keeps_update_on_wire_failure_witness :
    (∃ e, (clientUpdateValue (BadgerDB.Create sampleEntry BadgerDB.empty) false true
      [121] sampleValue).2.2 = some e) ∧
    (clientUpdateValue (BadgerDB.Create sampleEntry BadgerDB.empty) false true [121]
        sampleValue).1 =
      { BadgerDB.Create sampleEntry BadgerDB.empty with
        values := alSet (BadgerDB.Create sampleEntry BadgerDB.empty).values 7 sampleValue,
        seqs := alSet (BadgerDB.Create sampleEntry BadgerDB.empty).seqs 7 (0 + 1) } ∧
    alGet (clientUpdateValue (BadgerDB.Create sampleEntry BadgerDB.empty) false true
      [121] sampleValue).1.values 7 = some sampleValue ∧
    alGet (clientUpdateValue (BadgerDB.Create sampleEntry BadgerDB.empty) false true
      [121] sampleValue).1.seqs 7 = some (0 + 1) :=
  C10_store_keeps_update_on_wire_failure (BadgerDB.Create sampleEntry BadgerDB.empty)
    [121] sampleValue 7 0 false true (by decide) (Or.inl rfl)

/-! Helper lemma for the handshake's local-entry phase. -/

theorem sendLocalEntries_spec (st : BadgerDB) (sn : List (List Nat)) :
    ∀ (names : List (List Nat)) (w : List Nat),
      sendLocalEntries st sn names = (w, none) →
      ∀ name ∈ names, name ∉ sn →
        ∃ e wa, BadgerDB.GetByName name st = .ok e ∧
          writeEntryAssignment e = .ok wa ∧
          ∃ pre post, w = pre ++ wa ++ post := by
  intro names
  induction names with
  | nil =>
    intro w _ name hmem
    exact absurd hmem (List.not_mem_nil name)
  | cons n rest ih =>
    intro w hw name hmem hnotin
    rw [sendLocalEntries] at hw
    by_cases hn : n ∈ sn
    · rw [if_pos hn] at hw
      rcases List.mem_cons.mp hmem with heq | hmem'
      · subst heq
        exact absurd hn hnotin
      · exact ih w hw name hmem' hnotin
    · rw [if_neg hn] at hw
      split at hw
      · simp at hw
      · rename_i e hget
        split at hw
        · simp at hw
        · rename_i wa henc
          split at hw
          rename_i p ws res hrest
          simp only [Prod.mk.injEq] at hw
          obtain ⟨hw1, hw2⟩ := hw
          subst hw2
          rcases List.mem_cons.mp hmem with heq | hmem'
          · subst heq
            exact ⟨e, wa, hget, henc, [], ws, by rw [← hw1]; simp⟩
          · obtain ⟨e', wa', hget', henc', pre', post', hsplit⟩ :=
              ih ws (by rw [hrest]) name hmem' hnotin
            exact ⟨e', wa', hget', henc', wa ++ pre', post', by
              rw [← hw1, hsplit]; simp⟩

/-- C9: on a successful handshake run, the bytes written are exactly the
client hello, then a middle segment, then the `client-hello-complete`
byte; and every store name not received as a server assignment this
session (`sn` is the name set collected by the assignment loop) has its
entry fetched and an `entry-assignment` for it — built with the sentinel
id `0xFFFF` — embedded in that middle segment, i.e. sent before the
completion message. -/
theorem C9_local_assignments_precede_complete (st0 : BadgerDB)
    (input identity : List Nat) (seen : Bool) (sid rest : List Nat)
    (st1 : BadgerDB) (sn : List (List Nat)) (leftover : List Nat) (wire : List Nat)
    (hhello : readServerHello input = .ok (seen, sid, rest))
    (hloop : handshakeLoop (rest.length + 1) st0 rest [] = (st1, sn, leftover, none))
    (hrun : handshake st0 input identity = (st1, wire, none)) :
    ∃ mid, wire = writeClientHello identity ++ mid ++ [clientHelloCompleteMessageType] ∧
      ∀ name ∈ BadgerDB.GetNames st1, name ∉ sn →
        ∃ e wa, BadgerDB.GetByName name st1 = .ok e ∧
          writeEntryAssignment e = .ok wa ∧
          (assignmentFromEntry (Int.ofNat createID) e).ID = 0xFFFF ∧
          ∃ pre post, mid = pre ++ wa ++ post := by
  rw [handshake, hhello] at hrun
  simp only [] at hrun
  rw [hloop] at hrun
  simp only [] at hrun
  cases hsend : sendLocalEntries st1 sn (BadgerDB.GetNames st1) with
  | mk w res =>
    rw [hsend] at hrun
    cases res with
    | some e => simp at hrun
    | none =>
      simp only [Prod.mk.injEq] at hrun
      obtain ⟨-, hw, -⟩ := hrun
      refine ⟨w, by rw [← hw]; rfl, ?_⟩
      intro name hmem hnotin
      obtain ⟨e, wa, hget, henc, pre, post, hsplit⟩ :=
        sendLocalEntries_spec st1 sn (BadgerDB.GetNames st1) w hsend name hmem hnotin
      exact ⟨e, wa, hget, henc, rfl, pre, post, hsplit⟩

/-- C9 witness: client store pre-seeded with entry `"y"`, server sends
only `server-hello` then `server-hello-complete`; the run succeeds and the
theorem yields the assignment for `"y"` inside the middle segment. -/
theorem C9_local_assignments_precede_complete_witness :
    readServerHello [4, 0, 0, 3] = .ok (false, [], [3]) ∧
    handshakeLoop 2 (BadgerDB.Create sampleEntry BadgerDB.empty) [3] [] =
      (BadgerDB.Create sampleEntry BadgerDB.empty, [], [], none) ∧
    handshake (BadgerDB.Create sampleEntry BadgerDB.empty) [4, 0, 0, 3] [105] =
      (BadgerDB.Create sampleEntry BadgerDB.empty,
        [1, 3, 0, 1, 105, 0x10, 1, 121, 0, 255, 255, 0, 0, 0, 1, 5], none) ∧
    (∃ mid, [1, 3, 0, 1, 105, 0x10, 1, 121, 0, 255, 255, 0, 0, 0, 1, 5] =
        writeClientHello [105] ++ mid ++ [clientHelloCompleteMessageType] ∧
      ∀ name ∈ BadgerDB.GetNames (BadgerDB.Create sampleEntry BadgerDB.empty),
        name ∉ ([] : List (List Nat)) →
        ∃ e wa, BadgerDB.GetByName name (BadgerDB.Create sampleEntry BadgerDB.empty) =
            .ok e ∧
          writeEntryAssignment e = .ok wa ∧
          (assignmentFromEntry (Int.ofNat createID) e).ID = 0xFFFF ∧
          ∃ pre post, mid = pre ++ wa ++ post) :=
  ⟨by decide, by decide, by decide,
    C9_local_assignments_precede_complete (BadgerDB.Create sampleEntry BadgerDB.empty)
      [4, 0, 0, 3] [105] false [] [3] (BadgerDB.Create sampleEntry BadgerDB.empty) []
      [] [1, 3, 0, 1, 105, 0x10, 1, 121, 0, 255, 255, 0, 0, 0, 1, 5]
      (by decide) (by decide) (by decide)⟩

/-! Helper lemmas for the reverse-index invariant. -/

theorem idIndexConsistent_empty : IdIndexConsistent BadgerDB.empty := by
  intro id name h
  simp [BadgerDB.empty, alGet] at h

theorem idIndexConsistent_deleteEntry (st : BadgerDB) (id0 : Int) (name0 : List Nat)
    (hmap : alGet st.names name0 = some id0) (h : IdIndexConsistent st) :
    IdIndexConsistent (deleteEntry id0 name0 st) := by
  intro id name hid
  rw [deleteEntry] at hid ⊢
  simp only at hid ⊢
  rw [alGet_alDel] at hid
  by_cases hidx : id = id0
  · rw [if_pos hidx] at hid
    exact absurd hid (by simp)
  · rw [if_neg hidx] at hid
    have hnames := h id name hid
    rw [alGet_alDel]
    by_cases hne : name = name0
    · subst hne
      rw [hnames] at hmap
      injection hmap with hmap
      exact absurd hmap hidx
    · rw [if_neg hne]
      exact hnames

theorem idIndexConsistent_create (e : Entry) (st : BadgerDB)
    (h : IdIndexConsistent st) : IdIndexConsistent (BadgerDB.Create e st) := by
  intro id name hid
  cases hx : alGet st.names e.Name with
  | none =>
    simp only [BadgerDB.Create, deleteEntry, hx] at hid ⊢
    rw [alGet_alSet] at hid
    by_cases hide : id = e.ID
    · rw [if_pos hide] at hid
      injection hid with hid
      subst hid
      rw [alGet_alSet, if_pos rfl, hide]
    · rw [if_neg hide, alGet_alDel] at hid
      by_cases hidx : id = 0
      · rw [if_pos hidx] at hid
        exact absurd hid (by simp)
      · rw [if_neg hidx] at hid
        have hnames := h id name hid
        rw [alGet_alSet]
        by_cases hne : name = e.Name
        · subst hne
          rw [hnames] at hx
          exact absurd hx (by simp)
        · rw [if_neg hne, alGet_alDel, if_neg hne]
          exact hnames
  | some i =>
    simp only [BadgerDB.Create, deleteEntry, hx] at hid ⊢
    rw [alGet_alSet] at hid
    by_cases hide : id = e.ID
    · rw [if_pos hide] at hid
      injection hid with hid
      subst hid
      rw [alGet_alSet, if_pos rfl, hide]
    · rw [if_neg hide, alGet_alDel] at hid
      by_cases hidx : id = i
      · rw [if_pos hidx] at hid
        exact absurd hid (by simp)
      · rw [if_neg hidx] at hid
        have hnames := h id name hid
        rw [alGet_alSet]
        by_cases hne : name = e.Name
        · subst hne
          rw [hnames] at hx
          injection hx with hx
          exact absurd hx hidx
        · rw [if_neg hne, alGet_alDel, if_neg hne]
          exact hnames

theorem idIndexConsistent_applyOp (st : BadgerDB) (op : StoreOp)
    (h : IdIndexConsistent st) : IdIndexConsistent (applyOp st op) := by
  cases op with
  | create e => exact idIndexConsistent_create e st h
  | updateValue id seq v =>
    intro i n hi
    exact h i n hi
  | updateOptions id o =>
    intro i n hi
    exact h i n hi
  | delete id0 =>
    rw [applyOp]
    cases hname : alGet st.ids id0 with
    | none => simp only [BadgerDB.Delete, getName, hname]; exact h
    | some name0 =>
      simp only [BadgerDB.Delete, getName, hname]
      exact idIndexConsistent_deleteEntry st id0 name0 (h id0 name0 hname) h
  | deleteByName name0 =>
    rw [applyOp]
    cases hid0 : alGet st.names name0 with
    | none => simp only [BadgerDB.DeleteByName, getID, hid0]; exact h
    | some id0 =>
      simp only [BadgerDB.DeleteByName, getID, hid0]
      exact idIndexConsistent_deleteEntry st id0 name0 hid0 h
  | clear =>
    intro i n hi
    simp [applyOp, BadgerDB.Clear, BadgerDB.empty, alGet] at hi

theorem idIndexConsistent_foldl (l : List StoreOp) :
    ∀ st : BadgerDB, IdIndexConsistent st → IdIndexConsistent (l.foldl applyOp st) := by
  induction l with
  | nil => intro st h; exact h
  | cons op rest ih =>
    intro st h
    exact ih (applyOp st op) (idIndexConsistent_applyOp st op h)

/-- C2: amended.  After every finite sequence of store operations from the
empty store, the reverse index is consistent: every `ids/<id>` record
points to a name whose `names/<name>` record points back to that id.  The
claimed forward direction fails — a name listed by `GetNames()` can map to
an id whose reverse record names a different entry, because `Create` only
clears the old binding of the new entry's *name*, never of its *id* (see
the counterexample). -/
theorem C2_reverse_index_consistent (ops : List StoreOp) (id : Int) (name : List Nat)
    (h : alGet (runOps ops).ids id = some name) :
    alGet (runOps ops).names name = some id :=
  idIndexConsistent_foldl ops BadgerDB.empty idIndexConsistent_empty id name h

/-- C2 witness: the invariant applied after a single `Create`. -/
theorem C2_reverse_index_consistent_witness :
    alGet (runOps [StoreOp.create entryA]).names [97] = some 1 :=
  C2_reverse_index_consistent [StoreOp.create entryA] 1 [97] (by decide)

/-- C2 counterexample: `Create {id 1, "a"}` then `Create {id 1, "b"}` — an
id reuse the server can produce — leaves `"a"` in `GetNames()` with
`names/a ↦ 1` while `ids/1 ↦ "b"`: the forward lookup of `"a"` succeeds
but the reverse index does not map its id back to `"a"`, so the claimed
bijection is broken. -/
theorem C2_counterexample :
    [97] ∈ BadgerDB.GetNames (runOps [StoreOp.create entryA, StoreOp.create entryB]) ∧
    alGet (runOps [StoreOp.create entryA, StoreOp.create entryB]).names [97] = some 1 ∧
    alGet (runOps [StoreOp.create entryA, StoreOp.create entryB]).ids 1 = some [98] ∧
    alGet (runOps [StoreOp.create entryA, StoreOp.create entryB]).ids 1 ≠ some [97] := by
  decide
